import Mathlib

/-!
Verification of the mcp-connect repository's core logic against its
natural-language specification.

The development shallowly embeds:
* the configuration validator (`src/src/utils/configValidation.js`, first
  document) and the builder `defineMCP` (`src/src/defineMCP.js`);
* the request server's `tools/call` handler
  (`src/src/server/mcpServer.js`, first document), including the rate-limit
  gate, argument validation, handler dispatch, the result codec with its
  circular-reference replacer, and response-size truncation.

JavaScript dynamic values are modelled by inductive types; machine `Map`s by
association lists; the mutable `this.seenObjects` tracker by explicit state
passing.  `JSON.stringify` (an external platform builtin) is modelled by a
fuelled serializer that is faithful to the replacer semantics the code
installs: composite values are tracked in a seen-set, revisits are replaced by
the "[Circular Reference]" marker, and BigInt values raise a type error.
-/

set_option maxRecDepth 4096

namespace MCP

/-! ### Small string machinery (JS `\s`, substring search, literal matching) -/

/-- Character class of the JS `\s` regex escape (ASCII part). -/
def jsWs (c : Char) : Bool :=
  c = ' ' || c = '\t' || c = '\n' || c = '\r' || c = '\x0b' || c = '\x0c'

/-- Character class of the JS `\w` regex escape. -/
def isWordChar (c : Char) : Bool :=
  c.isAlphanum || c = '_'

/-- Does `l` start with the literal `p`?  (Used for regex literal parts.) -/
def charsStart : List Char → List Char → Bool
  | [], _ => true
  | _ :: _, [] => false
  | c :: p, x :: l => x = c && charsStart p l

/-- Consume the literal `p` from the front of `l`, returning the rest. -/
def dropLit : List Char → List Char → Option (List Char)
  | [], l => some l
  | _ :: _, [] => none
  | c :: p, x :: l => if x = c then dropLit p l else none

/-- Substring test on character lists (JS `String.prototype.includes`). -/
def charsHasSub (pat : List Char) : List Char → Bool
  | [] => charsStart pat []
  | c :: rest => charsStart pat (c :: rest) || charsHasSub pat rest

/-- Substring test on strings (JS `String.prototype.includes`). -/
def strIncludes (s pat : String) : Bool :=
  charsHasSub pat.data s.data

/-- JS `Array.prototype.join(sep)`. -/
def joinSep (sep : String) : List String → String
  | [] => ""
  | [x] => x
  | x :: y :: rest => x ++ sep ++ joinSep sep (y :: rest)

/-- JS `String.prototype.trim` (whitespace model restricted to `jsWs`). -/
def jsTrim (s : String) : String :=
  String.mk (((s.data.dropWhile jsWs).reverse.dropWhile jsWs).reverse)

/-- JS `String.prototype.split(sep)` for a one-character separator. -/
def jsSplit (s : String) (sep : Char) : List String :=
  (s.data.splitOn sep).map String.mk

/-! ### JS values for the configuration validator

A `JSFun` models a JavaScript function as the validator observes it: its
source text (`Function.prototype.toString`), whether its constructor is
`AsyncFunction`, and — as ground truth used only to *state* claims, never by
the embedded code — its declared parameter count (`Function.length`-style
arity, where a destructuring pattern counts as one parameter). -/

structure JSFun where
  src : String
  asyncCtor : Bool
  arity : Nat
deriving Repr, DecidableEq

inductive JSV where
  | undef : JSV
  | jsNull : JSV
  | bool (b : Bool) : JSV
  | num (n : Int) : JSV
  | str (s : String) : JSV
  | arr (elems : List JSV) : JSV
  | obj (fields : List (String × JSV)) : JSV
  | fn (f : JSFun) : JSV
deriving Repr

/-- JS truthiness. -/
def JSV.isTruthy : JSV → Bool
  | .undef => false
  | .jsNull => false
  | .bool b => b
  | .num n => n != 0
  | .str s => s ≠ ""
  | .arr _ => true
  | .obj _ => true
  | .fn _ => true

/-- `typeof v === 'object'` (true for `null`, arrays and plain objects). -/
def JSV.typeofObject : JSV → Bool
  | .jsNull => true
  | .arr _ => true
  | .obj _ => true
  | _ => false

/-- The `typeof` operator's result string. -/
def JSV.jsTypeof : JSV → String
  | .undef => "undefined"
  | .jsNull => "object"
  | .bool _ => "boolean"
  | .num _ => "number"
  | .str _ => "string"
  | .arr _ => "object"
  | .obj _ => "object"
  | .fn _ => "function"

/-- `Array.isArray`. -/
def JSV.isArray : JSV → Bool
  | .arr _ => true
  | _ => false

/-- Member access `v.k`: `undefined` on plain objects without the key and on
non-objects (the validator only reads fields of values it has checked). -/
def JSV.getField (v : JSV) (k : String) : JSV :=
  match v with
  | .obj fs => ((fs.find? (fun p => p.1 = k)).map Prod.snd).getD .undef
  | _ => (.undef)

/-- Key-presence test `k in v` for plain objects. -/
def JSV.hasKey (v : JSV) (k : String) : Bool :=
  match v with
  | .obj fs => fs.any (fun p => p.1 = k)
  | _ => false

/-- `Object.keys`. -/
def JSV.keys : JSV → List String
  | .obj fs => fs.map Prod.fst
  | _ => []

/-! ### Validation findings (`ValidationError` / `ValidationResult`) -/

structure Finding where
  field : String
  message : String
  value : Option JSV
  suggestion : Option String
deriving Repr

structure ValidationResult where
  isValid : Bool
  errors : List Finding
  warnings : List Finding
deriving Repr

/-! ### Regex helpers used by the validator

Each mirrors one regex literal of `configValidation.js`; the regexes involved
are simple enough that a deterministic greedy scan is equivalent (all adjacent
sub-patterns use disjoint character classes, see the comments). -/

/-- Test of `/^[a-zA-Z0-9\s\-_.]+$/` (server-name character check). -/
def nameFormatTest (s : String) : Bool :=
  !s.data.isEmpty && s.data.all (fun c => c.isAlphanum || jsWs c || c = '-' || c = '_' || c = '.')

/-- Test of `/^[a-zA-Z][a-zA-Z0-9_]*$/` (tool-name convention check). -/
def toolNameFormatTest (s : String) : Bool :=
  match s.data with
  | [] => false
  | c :: rest => c.isAlpha && rest.all (fun x => x.isAlphanum || x = '_')

/-- Identifier characters of the semver pre-release/build parts
(`[a-zA-Z0-9\-._]`). -/
def semverIdChar (c : Char) : Bool :=
  c.isAlphanum || c = '-' || c = '.' || c = '_'

/-- Consume one or more decimal digits; `none` when there is none. -/
def digits1 (l : List Char) : Option (List Char) :=
  let d := l.takeWhile Char.isDigit
  if d.isEmpty then none else some (l.drop d.length)

/-- Consume one or more `semverIdChar`s; `none` when there is none. -/
def semverIds1 (l : List Char) : Option (List Char) :=
  let d := l.takeWhile semverIdChar
  if d.isEmpty then none else some (l.drop d.length)

/-- Test of `/^\d+\.\d+\.\d+(-[a-zA-Z0-9\-._]+)?(\+[a-zA-Z0-9\-._]+)?$/`.
The pre-release class excludes `+`, so the greedy scan is exact. -/
def semverTest (s : String) : Bool :=
  match digits1 s.data with
  | none => false
  | some l1 =>
    match l1 with
    | '.' :: l2 =>
      match digits1 l2 with
      | none => false
      | some l3 =>
        match l3 with
        | '.' :: l4 =>
          match digits1 l4 with
          | none => false
          | some l5 =>
            let l6 := match l5 with
              | '-' :: l5a => (semverIds1 l5a).getD ('-' :: l5a)
              | _ => l5
            -- if the optional pre-release failed to consume, `l6 = l5` still
            -- starts with '-', and the build part below rejects it
            let l7 := match l6 with
              | '+' :: l6a => (semverIds1 l6a).getD ('+' :: l6a)
              | _ => l6
            l7.isEmpty
        | _ => false
    | _ => false

/-- The capture group of
`/^(?:async\s+)?(?:function\s*)?(?:\w+\s*)?\(([^)]*)\)/` applied to a
handler's source text: the text between the first parameter parentheses,
or `none` when the pattern does not match.  The optional groups are resolved
greedily; this matches the regex because `async`/`function` literals, `\w`,
`\s`, `(` and `)` interact without useful backtracking (a shorter match of
`\w+` always leaves a word character where `\s*\(` cannot match). -/
def sigCapture (l : List Char) : Option (List Char) :=
  -- (?:async\s+)?
  let l1 := match dropLit ("async".data) l with
    | some (c :: r) => if jsWs c then (c :: r).dropWhile jsWs else l
    | _ => l
  -- (?:function\s*)?
  let l2 := match dropLit ("function".data) l1 with
    | some r => r.dropWhile jsWs
    | none => l1
  -- (?:\w+\s*)?
  let w := l2.takeWhile isWordChar
  let l3 := if w.isEmpty then l2 else (l2.drop w.length).dropWhile jsWs
  -- \(([^)]*)\)
  match l3 with
  | '(' :: r =>
    let cap := r.takeWhile (fun c => c ≠ ')')
    if cap.length < r.length then some cap else none
  | _ => none

/-- `params.split(',').filter(p => p.trim()).length` in
`validateToolHandler`. -/
def paramsCount (params : String) : Nat :=
  ((jsSplit params ',').filter (fun p => jsTrim p ≠ "")).length

/-! ### The configuration validator (`ConfigValidator`, `configValidation.js`)

The JavaScript class accumulates findings in `this.errors`/`this.warnings` by
`push`; each embedded method returns the findings it would push, in push
order, and `validate` concatenates them in call order.  The `Set` of tool
names is threaded explicitly (insertion order, membership). -/

def requiredFields : List String := ["name", "version", "tools"]

def validateBasicStructure (config : JSV) : List Finding :=
  if !config.isTruthy || !config.typeofObject then
    [⟨"config", "Configuration must be an object", some config,
      some ("Use defineMCP(\x7b ... \x7d)")⟩]
  else if config.isArray then
    [⟨"config", "Configuration cannot be an array", some config,
      some ("Use defineMCP(\x7b ... \x7d) instead of [...]")⟩]
  else
    requiredFields.filterMap (fun f =>
      if config.hasKey f then none
      else some ⟨f, "Required field \"" ++ f ++ "\" is missing", none,
        some ("Add " ++ f ++ ": \"...\"")⟩)

def validateName (name : JSV) : List Finding × List Finding :=
  match name with
  | .undef => ([], [])
  | .str s =>
    if jsTrim s = "" then
      ([⟨"name", "Name cannot be empty", some name, some ("Use name: \"My App\"")⟩], [])
    else
      ([],
        (if s.length > 100 then
          [⟨"name", "Name is very long (>100 chars)", some name,
            some ("Consider a shorter name")⟩] else []) ++
        (if !nameFormatTest s then
          [⟨"name", "Name contains special characters", some name,
            some ("Use only letters, numbers, spaces, hyphens, underscores, and dots")⟩]
         else []))
  | _ => ([⟨"name", "Name must be a string", some name, some ("Use name: \"My App\"")⟩], [])

def validateVersion (version : JSV) : List Finding × List Finding :=
  match version with
  | .undef => ([], [])
  | .str s =>
    if jsTrim s = "" then
      ([⟨"version", "Version cannot be empty", some version, some ("Use version: \"1.0.0\"")⟩], [])
    else
      ([],
        if !semverTest s then
          [⟨"version", "Version doesn\x27t follow semantic versioning", some version,
            some ("Use format: \"1.0.0\"")⟩]
        else [])
  | _ => ([⟨"version", "Version must be a string", some version,
      some ("Use version: \"1.0.0\"")⟩], [])

def validateDescription (description : JSV) : List Finding × List Finding :=
  match description with
  | .undef => ([], [])
  | .str s =>
    ([],
      if s.length > 500 then
        [⟨"description", "Description is very long (>500 chars)", some description,
          some ("Consider a shorter description")⟩]
      else [])
  | _ => ([⟨"description", "Description must be a string", some description,
      some ("Use description: \"My app description\"")⟩], [])

def validateToolName (name : JSV) (fieldPath : String) (toolNames : List String) :
    List Finding × List Finding × List String :=
  match name with
  | .str s =>
    if jsTrim s = "" then
      ([⟨fieldPath, "Tool name cannot be empty", some name, some ("\"myToolName\"")⟩],
        [], toolNames)
    else
      let trimmedName := jsTrim s
      if toolNames.contains trimmedName then
        ([⟨fieldPath, "Duplicate tool name \"" ++ trimmedName ++ "\"", some name,
          some ("Each tool must have a unique name")⟩], [], toolNames)
      else
        ([],
          (if !toolNameFormatTest trimmedName then
            [⟨fieldPath,
              "Tool name should start with letter and contain only letters, numbers, underscores",
              some name, some ("\"myToolName\" or \"my_tool_name\"")⟩] else []) ++
          (if trimmedName.length > 50 then
            [⟨fieldPath, "Tool name is very long (>50 chars)", some name,
              some ("Consider a shorter name")⟩] else []),
          toolNames ++ [trimmedName])
  | _ => ([⟨fieldPath, "Tool name must be a string", some name, some ("\"myToolName\"")⟩],
      [], toolNames)

def validateToolHandler (handler : JSV) (fieldPath : String) :
    List Finding × List Finding :=
  match handler with
  | .fn f =>
    let handlerString := f.src
    let errs :=
      match sigCapture handlerString.data with
      | some cap =>
        let params := jsTrim (String.mk cap)
        if params ≠ "" then
          let paramCount := paramsCount params
          if paramCount > 1 then
            [⟨fieldPath,
              "Tool handler should accept 0 or 1 parameter, got " ++ toString paramCount,
              some (.num paramCount),
              some ("Use: async (args) => \x7b ... \x7d or async () => \x7b ... \x7d")⟩]
          else []
        else []
      | none => []
    let isAsync := f.asyncCtor
    let w1 :=
      if !isAsync && !strIncludes handlerString ("Promise")
          && !strIncludes handlerString ("await") then
        [⟨fieldPath, "Consider making tool handler async for better performance", none,
          some ("async (args) => \x7b ... \x7d")⟩]
      else []
    let w2 :=
      if strIncludes handlerString ("callback") || strIncludes handlerString ("cb") then
        [⟨fieldPath, "Tool handler appears to use callbacks - use async/await instead", none,
          some ("Replace callbacks with: async (args) => \x7b return await someAsyncOperation(); \x7d")⟩]
      else []
    (errs, w1 ++ w2)
  | _ =>
    ([⟨fieldPath, "Tool handler must be a function", some (.str handler.jsTypeof),
      some ("async (args) => \x7b ... \x7d")⟩], [])

def validateToolDescription (description : JSV) (fieldPath : String) :
    List Finding × List Finding :=
  match description with
  | .undef => ([], [])
  | .str s =>
    ([],
      if s.length > 200 then
        [⟨fieldPath, "Tool description is very long (>200 chars)", some description,
          some ("Consider a shorter description")⟩]
      else [])
  | _ => ([⟨fieldPath, "Tool description must be a string", some description,
      some ("\"Description of what this tool does\"")⟩], [])

def validateToolSchema (schema : JSV) (fieldPath : String) :
    List Finding × List Finding :=
  match schema with
  | .undef => ([], [])
  | _ =>
    if !schema.typeofObject || !schema.isTruthy || schema.isArray then
      ([⟨fieldPath, "Tool schema must be an object", some schema,
        some ("\x7b type: \x27object\x27, properties: \x7b...\x7d \x7d")⟩], [])
    else
      ((if (schema.getField ("type")).isTruthy
            && (schema.getField ("type")).jsTypeof ≠ "string" then
          [⟨fieldPath ++ ".type", "Schema type must be a string",
            some (schema.getField ("type")), some ("\"object\"")⟩] else []) ++
        (if (schema.getField ("properties")).isTruthy
            && (!(schema.getField ("properties")).typeofObject
              || (schema.getField ("properties")).isArray) then
          [⟨fieldPath ++ ".properties", "Schema properties must be an object",
            some (schema.getField ("properties")),
            some ("\x7b prop1: \x7b type: \x27string\x27 \x7d \x7d")⟩] else []) ++
        (if (schema.getField ("required")).isTruthy
            && !(schema.getField ("required")).isArray then
          [⟨fieldPath ++ ".required", "Schema required must be an array",
            some (schema.getField ("required")), some ("[\"prop1\", \"prop2\"]")⟩]
         else []),
        [])

def knownProps : List String := ["name", "handler", "description", "schema"]

def validateTool (tool : JSV) (index : Nat) (toolNames : List String) :
    List Finding × List Finding × List String :=
  let fieldPref := "tools[" ++ toString index ++ "]"
  match tool with
  | .arr elems =>
    if elems.length ≠ 2 then
      ([⟨fieldPref, "Tuple format must have exactly 2 elements [name, handler]",
        some tool, some ("[\"toolName\", handlerFunction]")⟩], [], toolNames)
    else
      ((validateToolName (elems.getD 0 .undef) (fieldPref ++ ".name") toolNames).1
          ++ (validateToolHandler (elems.getD 1 .undef) (fieldPref ++ ".handler")).1,
        (validateToolName (elems.getD 0 .undef) (fieldPref ++ ".name") toolNames).2.1
          ++ (validateToolHandler (elems.getD 1 .undef) (fieldPref ++ ".handler")).2,
        (validateToolName (elems.getD 0 .undef) (fieldPref ++ ".name") toolNames).2.2)
  | .obj fields =>
    let t := JSV.obj fields
    let ne := (validateToolName (t.getField ("name")) (fieldPref ++ ".name") toolNames).1
    let names' := (validateToolName (t.getField ("name")) (fieldPref ++ ".name") toolNames).2.2
    let nw := (validateToolName (t.getField ("name")) (fieldPref ++ ".name") toolNames).2.1
    let he := (validateToolHandler (t.getField ("handler")) (fieldPref ++ ".handler")).1
    let hw := (validateToolHandler (t.getField ("handler")) (fieldPref ++ ".handler")).2
    let de := (validateToolDescription (t.getField ("description")) (fieldPref ++ ".description")).1
    let dw := (validateToolDescription (t.getField ("description")) (fieldPref ++ ".description")).2
    let se := (validateToolSchema (t.getField ("schema")) (fieldPref ++ ".schema")).1
    let sw := (validateToolSchema (t.getField ("schema")) (fieldPref ++ ".schema")).2
    let unknownProps := t.keys.filter (fun p => !knownProps.contains p)
    let uw :=
      if unknownProps.length > 0 then
        [⟨fieldPref, "Unknown properties: " ++ joinSep (", ") unknownProps,
          some (.arr (unknownProps.map .str)), some ("Remove unknown properties")⟩]
      else []
    (ne ++ he ++ de ++ se, nw ++ hw ++ dw ++ sw ++ uw, names')
  | _ =>
    ([⟨fieldPref, "Tool must be [name, handler] or \x7bname, handler, ...\x7d",
      some tool, some ("[\"toolName\", handler] or \x7bname: \"toolName\", handler\x7d")⟩],
      [], toolNames)

/-- The handler value the async-pattern tracker in `validateTools` extracts
from a tool entry (its `let handler; if ... tool[1] ... else if ... tool.handler`). -/
def asyncHandlerOf : JSV → JSV
  | .arr es => if es.length = 2 then es.getD 1 .undef else .undef
  | .obj fs =>
    let h := (JSV.obj fs).getField ("handler")
    if h.isTruthy then h else .undef
  | _ => (.undef)

/-- The async-pattern record pushed for one tool entry, when its handler is a
function. -/
def asyncPatternOf (tool : JSV) (index : Nat) : Option (Nat × Bool) :=
  match asyncHandlerOf tool with
  | .fn f =>
    some (index, f.asyncCtor || strIncludes f.src ("Promise") || strIncludes f.src ("await"))
  | _ => none

/-- The `tools.forEach` loop of `validateTools`: validates each tool in order,
threading the name set, and collects the async patterns. -/
def validateToolsGo : List JSV → Nat → List String →
    List Finding × List Finding × List String × List (Nat × Bool)
  | [], _, names => ([], [], names, [])
  | tool :: rest, i, names =>
    ((validateTool tool i names).1
        ++ (validateToolsGo rest (i + 1) (validateTool tool i names).2.2).1,
      (validateTool tool i names).2.1
        ++ (validateToolsGo rest (i + 1) (validateTool tool i names).2.2).2.1,
      (validateToolsGo rest (i + 1) (validateTool tool i names).2.2).2.2.1,
      (asyncPatternOf tool i).toList
        ++ (validateToolsGo rest (i + 1) (validateTool tool i names).2.2).2.2.2)

def validateAsyncConsistency (asyncPatterns : List (Nat × Bool)) : List Finding :=
  if asyncPatterns.length < 2 then []
  else
    let asyncCount := (asyncPatterns.filter (fun p => p.2)).length
    let syncCount := asyncPatterns.length - asyncCount
    (if asyncCount > 0 && syncCount > 0 then
      let syncIndexes := (asyncPatterns.filter (fun p => !p.2)).map (fun p => toString p.1)
      [⟨"tools",
        "Mixing async and sync tools may cause inconsistent behavior. Tools at indexes ["
          ++ joinSep (", ") syncIndexes ++ "] are synchronous",
        some (.obj [("asyncCount", .num asyncCount), ("syncCount", .num syncCount)]),
        some ("Consider making all tools async for consistency: async (args) => \x7b ... \x7d")⟩]
     else []) ++
    (if asyncCount > syncCount && syncCount > 0 then
      [⟨"tools", "Most tools are async - consider converting remaining sync tools to async",
        none, some ("Use: async (args) => \x7b return syncResult; \x7d for sync operations")⟩]
     else [])

def validateTools (tools : JSV) : List Finding × List Finding :=
  match tools with
  | .undef => ([], [])
  | .arr ts =>
    if ts.length = 0 then
      ([⟨"tools", "At least one tool must be defined", some tools,
        some ("Add tools: [[\"myTool\", handler]] or run \"mcp-connect init\" for examples")⟩],
        [])
    else
      let w0 :=
        if ts.length > 50 then
          [⟨"tools", "Large number of tools (>50)", some tools,
            some ("Consider grouping related functionality")⟩]
        else []
      ((validateToolsGo ts 0 []).1,
        w0 ++ (validateToolsGo ts 0 []).2.1
          ++ validateAsyncConsistency (validateToolsGo ts 0 []).2.2.2)
  | _ => ([⟨"tools", "Tools must be an array", some tools, some ("Use tools: [...]")⟩], [])

/-- `ConfigValidator.validate` / `validateConfig`. -/
def validate (config : JSV) : ValidationResult :=
  let e1 := validateBasicStructure config
  if e1.isEmpty then
    let errs := (validateName (config.getField ("name"))).1
      ++ (validateVersion (config.getField ("version"))).1
      ++ (validateDescription (config.getField ("description"))).1
      ++ (validateTools (config.getField ("tools"))).1
    ⟨errs.isEmpty, errs,
      (validateName (config.getField ("name"))).2
        ++ (validateVersion (config.getField ("version"))).2
        ++ (validateDescription (config.getField ("description"))).2
        ++ (validateTools (config.getField ("tools"))).2⟩
  else
    ⟨false, e1, []⟩

/-! ### The configuration builder (`defineMCP`, `src/src/defineMCP.js`)

`defineMCP` validates, throws on blocking errors (modelled as `Except.error`),
then normalizes every tool declaration into the canonical `MCPTool` record.
The formatted error text and the warning logging are not modelled (no claim
observes them). -/

structure MCPTool where
  name : String
  description : String
  inputSchema : JSV
  handler : JSV
deriving Repr

structure MCPConfig where
  name : JSV
  version : JSV
  description : JSV
  tools : List MCPTool
deriving Repr

/-- The open permissive default input schema. -/
def openSchema : JSV :=
  .obj [("type", .str "object"), ("properties", .obj []),
    ("additionalProperties", .bool true)]

/-- String extraction for values the validator has already confirmed to be
strings (on other values JS string methods would fault; those branches are
unreachable after a successful validation). -/
def jsvStr : JSV → String
  | .str s => s
  | _ => ""

/-- Tool normalization, the body of `config.tools.map((tool) => ...)`.
Positional form: `name: name.trim()`, `` description: `Tool: ${name}` ``
(note: the *raw* name, not the trimmed one), default schema.  Descriptor
form: `description: description || ...`, `inputSchema: schema || ...`
(JS `||`, so falsy values select the default). -/
def normalizeTool (tool : JSV) : MCPTool :=
  match tool with
  | .arr elems =>
    let name := elems.getD 0 .undef
    let handler := elems.getD 1 .undef
    ⟨jsTrim (jsvStr name), "Tool: " ++ jsvStr name, openSchema, handler⟩
  | _ =>
    let name := tool.getField ("name")
    let handler := tool.getField ("handler")
    let description := tool.getField ("description")
    let schema := tool.getField ("schema")
    ⟨jsTrim (jsvStr name),
      (if description.isTruthy then jsvStr description else "Tool: " ++ jsvStr name),
      (if schema.isTruthy then schema else openSchema),
      handler⟩

/-- The tools array of a configuration value (empty on the unreachable
non-array case). -/
def configToolsList (config : JSV) : List JSV :=
  match config.getField ("tools") with
  | .arr ts => ts
  | _ => []

/-- `defineMCP`: validate, throw (`Except.error`) when blocking, otherwise
assemble the canonical configuration. -/
def defineMCP (config : JSV) : Except Unit MCPConfig :=
  let validationResult := validate config
  if validationResult.isValid then
    .ok ⟨config.getField ("name"), config.getField ("version"),
      config.getField ("description"),
      (configToolsList config).map normalizeTool⟩
  else
    .error ()

/-! ### Heap model of handler return values

Handler results can be self-referential, so composite values live in a heap:
a `HVal` is an immediate value or a reference into the heap, a `HCell` is one
array or plain object.  `WeakSet` membership is reference identity, modelled
by the `Nat` address. -/

inductive HVal where
  | hNull : HVal
  | hUndef : HVal
  | hBool (b : Bool) : HVal
  | hNum (n : Int) : HVal
  | hStr (s : String) : HVal
  | hBig (n : Int) : HVal
  | hRef (r : Nat) : HVal
deriving Repr, DecidableEq

inductive HCell where
  | arrCell (elems : List HVal) : HCell
  | objCell (fields : List (String × HVal)) : HCell
deriving Repr, DecidableEq

abbrev Heap := List HCell

def cellAt (heap : Heap) (r : Nat) : HCell :=
  heap.getD r (.objCell [])

def HCell.children : HCell → List HVal
  | .arrCell elems => elems
  | .objCell fields => fields.map Prod.snd

/-- The `this.seenObjects` tracker: `none` is JS `null`/fresh, `some l` a
`WeakSet` holding the addresses in `l`. -/
def seenHas (seen : Option (List Nat)) (r : Nat) : Bool :=
  (seen.getD []).contains r

def seenAdd (seen : Option (List Nat)) (r : Nat) : Option (List Nat) :=
  some (r :: seen.getD [])

def circularMarker : String := "[Circular Reference]"

/-- JSON string quoting (the builtin serialization of string values;
escaping is abstracted to the characters that matter here). -/
def jqChar (c : Char) : String :=
  if c = '"' then "\\\"" else if c = '\\' then "\\\\"
  else if c = '\n' then "\\n" else String.singleton c

def jq (s : String) : String :=
  "\"" ++ String.join (s.data.map jqChar) ++ "\""

/-- One serialization step's outcome: a produced fragment (`none` for JS
`undefined`, which object serialization omits), the `TypeError` a BigInt
raises, or fuel exhaustion (a model artifact; `stringifyFuel` is proved
sufficient below). -/
inductive SerOut where
  | val (o : Option String) : SerOut
  | typeErr : SerOut
  | noFuel : SerOut
deriving Repr, DecidableEq

inductive SerListOut where
  | items (l : List String) : SerListOut
  | typeErr : SerListOut
  | noFuel : SerListOut
deriving Repr, DecidableEq

/-- Serialize the elements of one array cell, threading the seen set through
`f` (the one-value serializer); array holes/`undefined` render as `"null"`. -/
def serList (f : Option (List Nat) → HVal → SerOut × Option (List Nat)) :
    Option (List Nat) → List HVal → SerListOut × Option (List Nat)
  | seen, [] => (.items [], seen)
  | seen, v :: rest =>
    match f seen v with
    | (.val o, seen') =>
      match serList f seen' rest with
      | (.items ps, seen'') => (.items (o.getD ("null") :: ps), seen'')
      | (.typeErr, seen'') => (.typeErr, seen'')
      | (.noFuel, seen'') => (.noFuel, seen'')
    | (.typeErr, seen') => (.typeErr, seen')
    | (.noFuel, seen') => (.noFuel, seen')

/-- Serialize the fields of one object cell; `undefined`-valued properties
are omitted. -/
def serFieldList (f : Option (List Nat) → HVal → SerOut × Option (List Nat)) :
    Option (List Nat) → List (String × HVal) → SerListOut × Option (List Nat)
  | seen, [] => (.items [], seen)
  | seen, (k, v) :: rest =>
    match f seen v with
    | (.val o, seen') =>
      match serFieldList f seen' rest with
      | (.items ps, seen'') =>
        (.items ((match o with | some s => [jq k ++ ":" ++ s] | none => []) ++ ps), seen'')
      | (.typeErr, seen'') => (.typeErr, seen'')
      | (.noFuel, seen'') => (.noFuel, seen'')
    | (.typeErr, seen') => (.typeErr, seen')
    | (.noFuel, seen') => (.noFuel, seen')

/-- `JSON.stringify(result, replacer, 2)` with the circular-reference
replacer installed by `mcpServer.js` (indentation whitespace is abstracted).
The replacer runs before each value is serialized: a revisited composite is
replaced by the `circularMarker` string, a fresh one is added to the seen
set first.  The seen set is threaded through (and survives a `typeErr`,
like the mutated `this.seenObjects` does). -/
def serProp (heap : Heap) : Nat → Option (List Nat) → HVal → SerOut × Option (List Nat)
  | fuel, seen, v =>
    match v with
    | .hStr s => (.val (some (jq s)), seen)
    | .hNum n => (.val (some (toString n)), seen)
    | .hBool b => (.val (some (cond b ("true") ("false"))), seen)
    | .hNull => (.val (some ("null")), seen)
    | .hUndef => (.val none, seen)
    | .hBig _ => (.typeErr, seen)
    | .hRef r =>
      if seenHas seen r then (.val (some (jq circularMarker)), seen)
      else
        match fuel with
        | 0 => (.noFuel, seenAdd seen r)
        | fuel + 1 =>
          match cellAt heap r with
          | .arrCell elems =>
            match serList (serProp heap fuel) (seenAdd seen r) elems with
            | (.items ps, seen') => (.val (some ("[" ++ joinSep (",") ps ++ "]")), seen')
            | (.typeErr, seen') => (.typeErr, seen')
            | (.noFuel, seen') => (.noFuel, seen')
          | .objCell fields =>
            match serFieldList (serProp heap fuel) (seenAdd seen r) fields with
            | (.items ps, seen') => (.val (some ("\x7b" ++ joinSep (",") ps ++ "\x7d")), seen')
            | (.typeErr, seen') => (.typeErr, seen')
            | (.noFuel, seen') => (.noFuel, seen')

/-- Fuel that always suffices (proved below): one unit per heap cell. -/
def stringifyFuel (heap : Heap) : Nat := heap.length + 1

/-- Element conversion for `Array.prototype.join` (`null`/`undefined`
render empty). -/
def joinElems (f : HVal → String) : List HVal → List String
  | [] => []
  | v :: rest =>
    (match v with
      | .hNull => ""
      | .hUndef => ""
      | _ => f v) :: joinElems f rest

/-- JS `String(v)` (the fallback conversion in the `jsonError` catch). -/
def jsToStringFuel (heap : Heap) : Nat → HVal → String
  | _, .hNull => "null"
  | _, .hUndef => "undefined"
  | _, .hBool b => cond b ("true") ("false")
  | _, .hNum n => toString n
  | _, .hBig n => toString n
  | _, .hStr s => s
  | fuel, .hRef r =>
    match cellAt heap r with
    | .objCell _ => "[object Object]"
    | .arrCell elems =>
      match fuel with
      | 0 => ""
      | fuel + 1 => joinSep (",") (joinElems (jsToStringFuel heap fuel) elems)

def jsToString (heap : Heap) (v : HVal) : String :=
  jsToStringFuel heap (heap.length + 1) v

/-- Result encoding, `mcpServer.js` lines 181–216: strings pass through,
`null`/`undefined` become `"null"`, anything else goes through
`JSON.stringify` with the circular-reference replacer; on success the
tracker is reset (`this.seenObjects = null`), on a serialization fault the
content falls back to `String(result)` and the tracker keeps whatever the
replacer left in it. -/
def encodeContent (seenObjects : Option (List Nat)) (heap : Heap) (result : HVal) :
    String × Option (List Nat) :=
  match result with
  | .hStr s => (s, seenObjects)
  | .hNull => ("null", seenObjects)
  | .hUndef => ("null", seenObjects)
  | _ =>
    match serProp heap (stringifyFuel heap) seenObjects result with
    | (.val o, _) => (o.getD ("undefined"), none)
    | (.typeErr, seen') => (jsToString heap result, seen')
    | (.noFuel, seen') => ("", seen')

/-- `MAX_RESPONSE_SIZE`, 1 MiB. -/
def MAX_RESPONSE_SIZE : Nat := 1024 * 1024

def truncationMarker : String := "\n\n[Response truncated - exceeded 1MB limit]"

/-- Response-size check, `mcpServer.js` lines 219–226
(`content.substring(0, MAX_RESPONSE_SIZE - 100)` plus the marker). -/
def truncateResponse (content : String) : String :=
  if content.length > MAX_RESPONSE_SIZE then
    String.mk (content.data.take (MAX_RESPONSE_SIZE - 100)) ++ truncationMarker
  else content

/-! ### The tool-call request server (`MCPConnectServer`, `mcpServer.js`) -/

/-- A thrown/rejected JS value as the error paths distinguish them:
an `Error` instance, a string, or anything else. -/
inductive Thrown where
  | errObj (message : String) : Thrown
  | strVal (s : String) : Thrown
  | otherVal : Thrown
deriving Repr, DecidableEq

/-- `sanitizeErrorMessage` (`src/src/utils/validation.js`). -/
def sanitizeErrorMessage : Thrown → String
  | .errObj m => m
  | .strVal s => s
  | .otherVal => "An unknown error occurred"

/-- `validateToolArguments` (`src/src/utils/validation.js`): `null`/absent
coerce to a fresh empty object, arrays and non-objects are rejected. -/
def validateToolArguments (heap : Heap) (args : HVal) :
    Except Thrown (Heap × HVal) :=
  match args with
  | .hNull => .ok (heap ++ [.objCell []], .hRef heap.length)
  | .hUndef => .ok (heap ++ [.objCell []], .hRef heap.length)
  | .hRef r =>
    match cellAt heap r with
    | .arrCell _ => .error (.errObj ("Tool arguments must be an object"))
    | .objCell _ => .ok (heap, .hRef r)
  | _ => .error (.errObj ("Tool arguments must be an object"))

/-- Outcome of racing one handler invocation against the 30 s timeout:
a produced value (with the heap as the handler left it), a synchronous
throw / rejection, or the timeout winning the race. -/
inductive HandlerOutcome where
  | ok (heap : Heap) (v : HVal) : HandlerOutcome
  | fault (t : Thrown) : HandlerOutcome
  | timedOut : HandlerOutcome

structure ServerTool where
  name : String
  description : String
  handler : Heap → HVal → HandlerOutcome

structure ServerState where
  tools : List ServerTool
  isShuttingDown : Bool
  requestCounts : List (Nat × Nat)
  seenObjects : Option (List Nat)
  heap : Heap

def maxRequestsPerMinute : Nat := 100

/-- JS `Map.get`. -/
def mapGet (m : List (Nat × Nat)) (k : Nat) : Option Nat :=
  (m.find? (fun p => p.1 = k)).map Prod.snd

/-- JS `Map.set` (update in place, insert at the end). -/
def mapSet (m : List (Nat × Nat)) (k v : Nat) : List (Nat × Nat) :=
  if m.any (fun p => p.1 = k) then
    m.map (fun p => if p.1 = k then (k, v) else p)
  else m ++ [(k, v)]

/-- The cleanup loop: delete every key `< currentMinute - 1` (integer
comparison, written without truncated subtraction). -/
def mapPrune (m : List (Nat × Nat)) (currentMinute : Nat) : List (Nat × Nat) :=
  m.filter (fun p => !(p.1 + 1 < currentMinute))

/-- Observable steps of one `tools/call` invocation, in execution order. -/
inductive Ev where
  | shutdownReject : Ev
  | ratePass : Ev
  | rateReject : Ev
  | nameOk : Ev
  | nameReject : Ev
  | lookupOk : Ev
  | lookupFail : Ev
  | argsOk : Ev
  | argsReject : Ev
  | handlerRun : Ev
deriving Repr, DecidableEq

/-- The `try` block of the call handler: argument validation, handler
execution under the timeout race, result encoding, size truncation.
Failures here are caught and wrapped by `callTool` below. -/
def callToolTry (s : ServerState) (t : ServerTool) (args : HVal) :
    Except Thrown String × List Ev × ServerState :=
  match validateToolArguments s.heap args with
  | .error e => (.error e, [.argsReject], s)
  | .ok (heap1, validatedArgs) =>
    match t.handler heap1 validatedArgs with
    | .fault e => (.error e, [.argsOk, .handlerRun], { s with heap := heap1 })
    | .timedOut =>
      (.error (.errObj ("Tool \"" ++ t.name ++ "\" execution timed out after 30000ms")),
        [.argsOk, .handlerRun], { s with heap := heap1 })
    | .ok heap2 result =>
      (.ok (truncateResponse (encodeContent s.seenObjects heap2 result).1),
        [.argsOk, .handlerRun],
        { s with heap := heap2, seenObjects := (encodeContent s.seenObjects heap2 result).2 })

/-- The wrapped failure message of the catch block,
`` `Tool "${name}" failed: ${sanitizedMessage}` ``. -/
def toolFailedMsg (n msg : String) : String :=
  "Tool \"" ++ n ++ "\" failed: " ++ msg

/-- The part of the call handler after the rate-limit gate has passed and
bumped the counter: name validation, lookup, then the `try` block whose
failures are rethrown as `Tool "<name>" failed: <sanitized>`. -/
def callToolNamed (s1 : ServerState) (name : HVal) (args : HVal) :
    Except Thrown String × List Ev × ServerState :=
  match name with
  | .hStr n =>
    if n = "" then
      (.error (.errObj ("Tool name is required and must be a string")),
        [.ratePass, .nameReject], s1)
    else
      match s1.tools.find? (fun t => t.name = n) with
      | none =>
        (.error (.errObj ("Tool \"" ++ n ++ "\" not found. Available tools: "
          ++ joinSep (", ") (s1.tools.map (fun t => t.name)))),
          [.ratePass, .nameOk, .lookupFail], s1)
      | some t =>
        match callToolTry s1 t args with
        | (.ok content, evs, s2) =>
          (.ok content, [.ratePass, .nameOk, .lookupOk] ++ evs, s2)
        | (.error e, evs, s2) =>
          (.error (.errObj (toolFailedMsg n (sanitizeErrorMessage e))),
            [.ratePass, .nameOk, .lookupOk] ++ evs, s2)
  | _ =>
    (.error (.errObj ("Tool name is required and must be a string")),
      [.ratePass, .nameReject], s1)

/-- The gate's mutation once it passes: set the bucket to `count + 1`, then
prune buckets older than the previous minute. -/
def bumpCounts (s : ServerState) (now : Nat) : ServerState :=
  { s with requestCounts :=
      (mapPrune
        (mapSet s.requestCounts (now / 60000)
          ((mapGet s.requestCounts (now / 60000)).getD 0 + 1))
        (now / 60000)) }

/-- The `tools/call` request handler (`mcpServer.js` lines 116–249):
shutdown gate, rate-limit gate (check, then increment, then prune, with
`currentMinute = Math.floor(Date.now() / 60000)`), then `callToolNamed`. -/
def callTool (s : ServerState) (now : Nat) (name : HVal) (args : HVal) :
    Except Thrown String × List Ev × ServerState :=
  if s.isShuttingDown then
    (.error (.errObj ("Server is shutting down")), [.shutdownReject], s)
  else if (mapGet s.requestCounts (now / 60000)).getD 0 ≥ maxRequestsPerMinute then
    (.error (.errObj ("Rate limit exceeded: " ++ toString maxRequestsPerMinute
      ++ " requests per minute")), [.rateReject], s)
  else
    callToolNamed (bumpCounts s now) name args

/-- Consecutive `tools/call` invocations (each call's response and trace,
and the final server state). -/
def runCalls (s : ServerState) :
    List (Nat × HVal × HVal) → List (Except Thrown String × List Ev) × ServerState
  | [] => ([], s)
  | (now, name, args) :: rest =>
    (((callTool s now name args).1, (callTool s now name args).2.1)
        :: (runCalls (callTool s now name args).2.2 rest).1,
      (runCalls (callTool s now name args).2.2 rest).2)

/-- The count the rate-limit gate reads for bucket `b`. -/
def gateCount (s : ServerState) (b : Nat) : Nat :=
  (mapGet s.requestCounts b).getD 0

/-! ### Heap well-formedness and reachability (for the circular-safety claim) -/

/-- Rough bound on one value's reference, boolean form. -/
def refOk (n : Nat) : HVal → Bool
  | .hRef r => r < n
  | _ => true

/-- Every reference stored in the heap points into the heap. -/
def heapWF (heap : Heap) : Bool :=
  heap.all (fun cell => cell.children.all (refOk heap.length))

/-- One reference step in the heap graph. -/
def heapEdge (heap : Heap) (r r' : Nat) : Prop :=
  HVal.hRef r' ∈ (cellAt heap r).children

/-- `x` is reachable (in zero or more steps) from the value `v`. -/
def reachesFrom (heap : Heap) (v : HVal) (x : Nat) : Prop :=
  ∃ r, v = .hRef r ∧ Relation.ReflTransGen (heapEdge heap) r x

/-- The value contains a cycle: some reachable address lies on a non-trivial
reference cycle. -/
def HasCycle (heap : Heap) (v : HVal) : Prop :=
  ∃ x, reachesFrom heap v x ∧ Relation.TransGen (heapEdge heap) x x

/-! ### Trace-order predicates (for the validation-order claim) -/

def isNameEv : Ev → Bool
  | .nameOk => true
  | .nameReject => true
  | _ => false

def isLookupEv : Ev → Bool
  | .lookupOk => true
  | .lookupFail => true
  | _ => false

def isArgsEv : Ev → Bool
  | .argsOk => true
  | .argsReject => true
  | _ => false

/-- Some `p`-event strictly precedes some `q`-event in the trace. -/
def occursBefore (p q : Ev → Bool) (tr : List Ev) : Prop :=
  ∃ i j : Fin tr.length, i.val < j.val ∧ p (tr.get i) ∧ q (tr.get j)

instance occursBeforeDec (p q : Ev → Bool) (tr : List Ev) :
    Decidable (occursBefore p q tr) := by
  unfold occursBefore
  exact inferInstance

/-! ### Formal statements of the claims that turn out to fail on the code -/

/-- The declared name of one tool entry, for either declaration form. -/
def toolDeclaredName : JSV → Option String
  | .arr elems =>
    if elems.length = 2 then
      match elems.getD 0 .undef with
      | .str n => some n
      | _ => none
    else none
  | .obj fs =>
    match (JSV.obj fs).getField ("name") with
    | .str n => some n
    | _ => none
  | _ => none

def declNameAt (config : JSV) (i : Nat) : Option String :=
  toolDeclaredName ((configToolsList config).getD i .undef)

def dupMsg (t : String) : String := "Duplicate tool name \"" ++ t ++ "\""

/-- The tool entry declares (in either form) a string name whose trim is the
non-empty `t`. -/
def wellNamed (tool : JSV) (t : String) : Prop :=
  ∃ nm, toolDeclaredName tool = some nm ∧ jsTrim nm = t ∧ t ≠ ""

/-- The canonical (normalized) name of one tool entry. -/
def normName (tool : JSV) : String := (normalizeTool tool).name

/-- Claim C1 as stated: any configuration with two tools whose names are
equal after trimming gets `isValid = false` *and* a blocking error naming
the duplicate; and every configuration accepted by `defineMCP` yields
non-empty-after-trim, pairwise distinct tool names. -/
def c1Claim : Prop :=
  (∀ (config : JSV) (i j : Nat) (n m : String), i < j →
    j < (configToolsList config).length →
    declNameAt config i = some n → declNameAt config j = some m → jsTrim n = jsTrim m →
    (validate config).isValid = false ∧
      ∃ e ∈ (validate config).errors, e.message = dupMsg (jsTrim m)) ∧
  (∀ (config : JSV) (out : MCPConfig), defineMCP config = .ok out →
    (∀ t ∈ out.tools, jsTrim t.name ≠ "") ∧ (out.tools.map MCPTool.name).Nodup)

/-- Claim C3 as stated: name validation and argument validation both precede
handler lookup, and a known name with array-valued arguments is rejected
with the bare argument type error. -/
def c3Claim : Prop :=
  ∀ (s : ServerState) (now : Nat) (name args : HVal),
    ((callTool s now name args).2.1.any isLookupEv = true →
      occursBefore isNameEv isLookupEv (callTool s now name args).2.1 ∧
      occursBefore isArgsEv isLookupEv (callTool s now name args).2.1) ∧
    (∀ (n : String) (t : ServerTool) (r : Nat) (elems : List HVal),
      name = .hStr n → s.tools.find? (fun tl => tl.name = n) = some t →
      args = .hRef r → cellAt s.heap r = .arrCell elems →
      (callTool s now name args).1 = .error (.errObj ("Tool arguments must be an object")))

/-- The handler function of one tool entry, for either declaration form. -/
def toolDeclaredHandler : JSV → Option JSFun
  | .arr elems =>
    if elems.length = 2 then
      match elems.getD 1 .undef with
      | .fn f => some f
      | _ => none
    else none
  | .obj fs =>
    match (JSV.obj fs).getField ("handler") with
    | .fn f => some f
    | _ => none
  | _ => none

def declHandlerAt (config : JSV) (i : Nat) : Option JSFun :=
  toolDeclaredHandler ((configToolsList config).getD i .undef)

def paramCountMsgPart : String := "should accept 0 or 1 parameter"

/-- Claim C7 as stated: the parameter-count error fires exactly according to
the handler's *declared* arity (more than one parameter blocks, zero or one
never does). -/
def c7Claim : Prop :=
  ∀ (config : JSV) (idx : Nat) (f : JSFun),
    idx < (configToolsList config).length →
    declHandlerAt config idx = some f →
    (f.arity > 1 → ∃ e ∈ (validate config).errors,
      e.field = "tools[" ++ toString idx ++ "].handler" ∧
      strIncludes e.message paramCountMsgPart = true) ∧
    (f.arity ≤ 1 → ∀ e ∈ (validate config).errors,
      strIncludes e.message paramCountMsgPart = false)

/-- Claim C8 as stated: normalizing a valid positional declaration `[n, h]`
yields name `n.trim`, description `"Tool: " ++ n.trim` and the open default
schema. -/
def c8Claim : Prop :=
  ∀ (n : String) (h : JSV), jsTrim n ≠ "" →
    normalizeTool (.arr [.str n, h]) = ⟨jsTrim n, "Tool: " ++ jsTrim n, openSchema, h⟩

/-! ### Concrete example values used by counterexamples and witnesses -/

/-- A well-formed async one-parameter handler, `async (args) => args`. -/
def exHandlerFn : JSV := .fn ⟨"async (args) => args", true, 1⟩

/-- A two-parameter handler, `(a,b) => a` (spec scenario D). -/
def exBadArityFn : JSV := .fn ⟨"(a,b) => a", false, 2⟩

/-- A *one*-parameter handler with a destructuring pattern,
`(\x7ba, b\x7d) => a`; its JS `Function.length` is 1. -/
def exDestrFn : JSV := .fn ⟨"(\x7ba, b\x7d) => a", false, 1⟩

/-- A fully valid configuration with one tool. -/
def exConfigOk : JSV := .obj [("name", .str "T"), ("version", .str "1.0.0"),
  ("tools", .arr [.arr [.str "hello", exHandlerFn]])]

/-- Duplicate tool names, but the required field `name` is missing, so
phase 1 fails and the duplicate is never reported. -/
def exConfigDupNoName : JSV := .obj [("version", .str "1.0.0"),
  ("tools", .arr [.arr [.str "a", exHandlerFn], .arr [.str "a", exHandlerFn]])]

/-- Duplicate tool names in an otherwise fine configuration. -/
def exConfigDup : JSV := .obj [("name", .str "T"), ("version", .str "1.0.0"),
  ("tools", .arr [.arr [.str "a", exHandlerFn], .arr [.str "a", exHandlerFn]])]

/-- A valid configuration whose tool name has surrounding whitespace. -/
def exConfigWs : JSV := .obj [("name", .str "T"), ("version", .str "1.0.0"),
  ("tools", .arr [.arr [.str " hi ", exHandlerFn]])]

/-- Valid configuration with the destructuring one-parameter handler. -/
def exConfigDestr : JSV := .obj [("name", .str "T"), ("version", .str "1.0.0"),
  ("tools", .arr [.arr [.str "t", exDestrFn]])]

/-- Spec scenario D: `["bad", (a,b) => a]`. -/
def exConfigBadArity : JSV := .obj [("name", .str "T"), ("version", .str "1.0.0"),
  ("tools", .arr [.arr [.str "bad", exBadArityFn]])]

/-- A self-referential heap: cell 0 is `\x7bself: <cell 0>\x7d`. -/
def exCycHeap : Heap := [.objCell [("self", .hRef 0)]]

/-- The heap for the `seenObjects` bug: cell 0 is `\x7ba: <cell 1>, b: 10n\x7d`
(the BigInt faults `JSON.stringify`), cell 1 is the harmless `\x7bn: 1\x7d`. -/
def exBugHeap : Heap := [.objCell [("a", .hRef 1), ("b", .hBig 10)],
  .objCell [("n", .hNum 1)]]

/-- Tool returning cell 0 of the server heap. -/
def exToolRef0 : ServerTool := ⟨"t0", "Tool: t0", fun h _ => .ok h (.hRef 0)⟩

/-- Tool returning cell 1 of the server heap. -/
def exToolRef1 : ServerTool := ⟨"t1", "Tool: t1", fun h _ => .ok h (.hRef 1)⟩

/-- Tool returning the plain string greeting. -/
def exToolHello : ServerTool := ⟨"hello", "Tool: hello",
  fun h _ => .ok h (.hStr "Hello World!")⟩

/-- Fresh server owning the two heap tools over `exBugHeap`. -/
def exBugState : ServerState := ⟨[exToolRef0, exToolRef1], false, [], none, exBugHeap⟩

/-- Fresh server with one tool and an array cell for argument-validation
counterexamples. -/
def exArrState : ServerState :=
  ⟨[exToolHello], false, [], none, [.arrCell [.hNum 1]]⟩

/-- Fresh server whose only tool faults with a non-`Error`, non-string value. -/
def exFaultState : ServerState :=
  ⟨[⟨"bad", "Tool: bad", fun _ _ => .fault .otherVal⟩], false, [], none, []⟩

/-- A string one character over the 1 MiB response ceiling. -/
def exBigString : String := String.mk (List.replicate (MAX_RESPONSE_SIZE + 1) 'a')

/-- Fresh server with one tool and empty rate-limit map. -/
def exFreshState : ServerState := ⟨[exToolHello], false, [], none, []⟩

/-- 101 calls inside the same minute bucket. -/
def exManyReqs : List (Nat × HVal × HVal) :=
  List.replicate 101 ((0 : Nat), HVal.hStr "hello", HVal.hNull)

/-! ### Serialization-safety predicates over the heap model -/

/-- Cell `r` lies on or leads to a reference cycle. -/
def cyc (heap : Heap) (r : Nat) : Prop :=
  ∃ p, Relation.ReflTransGen (heapEdge heap) r p ∧
    Relation.TransGen (heapEdge heap) p p

/-- Well-formed tracker contents: no duplicate addresses, all in range. -/
def seenListWF (heap : Heap) (l : List Nat) : Prop :=
  l.Nodup ∧ ∀ x ∈ l, x < heap.length

/-- A serialization fragment carrying the circular-reference marker. -/
def MarkerOut (o : Option String) : Prop :=
  ∃ s, o = some s ∧ strIncludes s circularMarker = true

/-- A value on which the serializer `f` can only succeed by producing the
marker somewhere in its fragment. -/
def Forcing (f : Option (List Nat) → HVal → SerOut × Option (List Nat))
    (v : HVal) : Prop :=
  ∀ seen out seen1, f seen v = (.val out, seen1) → MarkerOut out

/-- Seen-set discipline of a value serializer: the tracker only ever grows,
and it stays well-formed. -/
def SeenOK (heap : Heap)
    (f : Option (List Nat) → HVal → SerOut × Option (List Nat)) : Prop :=
  ∀ seen v, refOk heap.length v = true → seenListWF heap (seen.getD []) →
    (∃ ext, ((f seen v).2).getD [] = ext ++ seen.getD []) ∧
      seenListWF heap (((f seen v).2).getD [])

/-- Fuel discipline of a value serializer: it cannot exhaust its fuel once
fuel plus tracker size exceeds the heap size. -/
def FuelOK (heap : Heap) (fuel : Nat)
    (f : Option (List Nat) → HVal → SerOut × Option (List Nat)) : Prop :=
  ∀ seen v, refOk heap.length v = true → seenListWF heap (seen.getD []) →
    heap.length + 1 ≤ fuel + (seen.getD []).length →
    (f seen v).1 ≠ SerOut.noFuel

end MCP

open MCP

/-! ## Helper lemmas -/

theorem charsStart_append (pat l l' : List Char) (h : charsStart pat l = true) :
    charsStart pat (l ++ l') = true := by
  induction pat generalizing l with
  | nil => rfl
  | cons c p ih =>
    cases l with
    | nil => simp [charsStart] at h
    | cons x xs =>
      simp only [charsStart, Bool.and_eq_true] at h
      simp only [List.cons_append, charsStart, Bool.and_eq_true]
      exact ⟨h.1, ih xs h.2⟩

theorem charsHasSub_nil_pat (l : List Char) : charsHasSub [] l = true := by
  cases l with
  | nil => rfl
  | cons c rest => simp [charsHasSub, charsStart]

theorem charsHasSub_append_left (pat l l' : List Char) (h : charsHasSub pat l = true) :
    charsHasSub pat (l ++ l') = true := by
  induction l with
  | nil =>
    have hp : pat = [] := by
      cases pat with
      | nil => rfl
      | cons c p => simp [charsHasSub, charsStart] at h
    subst hp
    exact charsHasSub_nil_pat l'
  | cons c rest ih =>
    simp only [charsHasSub, Bool.or_eq_true] at h
    rcases h with h | h
    · simp only [List.cons_append, charsHasSub, Bool.or_eq_true]
      exact Or.inl (charsStart_append _ _ _ h)
    · simp only [List.cons_append, charsHasSub, Bool.or_eq_true]
      exact Or.inr (ih h)

/-- `strIncludes` is stable under appending to the right of the haystack. -/
theorem strIncludes_append_left (s t pat : String) (h : strIncludes s pat = true) :
    strIncludes (s ++ t) pat = true := by
  have hd : (s ++ t).data = s.data ++ t.data := rfl
  unfold strIncludes at h ⊢
  rw [hd]
  exact charsHasSub_append_left _ _ _ h

/-! ## Evaluation lemmas for the call handler -/

/-- When the server is not shutting down and the bucket is under the ceiling,
the gate increments the bucket and hands over to `callToolNamed`. -/
theorem callTool_gate_pass (s : ServerState) (now : Nat) (name args : HVal)
    (hsd : s.isShuttingDown = false)
    (hc : gateCount s (now / 60000) < maxRequestsPerMinute) :
    callTool s now name args = callToolNamed (bumpCounts s now) name args := by
  have hc' : ¬ ((mapGet s.requestCounts (now / 60000)).getD 0 ≥ maxRequestsPerMinute) := by
    unfold gateCount at hc
    omega
  unfold callTool
  rw [if_neg (by simp [hsd]), if_neg hc']

/-- When the bucket is at the ceiling, the call fails with the rate-limit
error, leaving the state untouched and never reaching the handler. -/
theorem callTool_gate_reject (s : ServerState) (now : Nat) (name args : HVal)
    (hsd : s.isShuttingDown = false)
    (hc : maxRequestsPerMinute ≤ gateCount s (now / 60000)) :
    callTool s now name args =
      (.error (.errObj ("Rate limit exceeded: " ++ toString maxRequestsPerMinute
        ++ " requests per minute")), [.rateReject], s) := by
  have hc' : (mapGet s.requestCounts (now / 60000)).getD 0 ≥ maxRequestsPerMinute := by
    unfold gateCount at hc
    omega
  unfold callTool
  rw [if_neg (by simp [hsd]), if_pos hc']

theorem callToolNamed_found (s1 : ServerState) (n : String) (t : ServerTool) (args : HVal)
    (hn : ¬ n = "")
    (hfind : s1.tools.find? (fun tl => tl.name = n) = some t) :
    callToolNamed s1 (.hStr n) args =
      (match callToolTry s1 t args with
        | (.ok content, evs, s2) => (.ok content, [.ratePass, .nameOk, .lookupOk] ++ evs, s2)
        | (.error e, evs, s2) =>
          (.error (.errObj (toolFailedMsg n (sanitizeErrorMessage e))),
            [.ratePass, .nameOk, .lookupOk] ++ evs, s2)) := by
  simp only [callToolNamed, hfind]
  rw [if_neg hn]

theorem callToolTry_fault (s1 : ServerState) (t : ServerTool) (args : HVal)
    (heap1 : Heap) (vargs : HVal)
    (hargs : validateToolArguments s1.heap args = .ok (heap1, vargs))
    (e : Thrown) (hout : t.handler heap1 vargs = .fault e) :
    callToolTry s1 t args = (.error e, [.argsOk, .handlerRun], { s1 with heap := heap1 }) := by
  simp only [callToolTry, hargs, hout]

theorem callToolTry_argsReject (s1 : ServerState) (t : ServerTool) (args : HVal)
    (e : Thrown) (hargs : validateToolArguments s1.heap args = .error e) :
    callToolTry s1 t args = (.error e, [.argsReject], s1) := by
  simp only [callToolTry, hargs]

/-! ## C5 — response-size truncation -/

/-- C5: for every encoded result text longer than the 1 MiB ceiling the
returned content is at most the ceiling plus the truncation marker's length
and ends with the truncation marker; texts at or under the ceiling are
returned unchanged. -/
theorem c5_truncation (content : String) :
    (content.length > MAX_RESPONSE_SIZE →
      (truncateResponse content).length ≤ MAX_RESPONSE_SIZE + truncationMarker.length ∧
      truncationMarker.data <:+ (truncateResponse content).data) ∧
    (content.length ≤ MAX_RESPONSE_SIZE → truncateResponse content = content) := by
  constructor
  · intro h
    unfold truncateResponse
    rw [if_pos h]
    constructor
    · have hml : truncationMarker.length = truncationMarker.data.length := rfl
      have h1 : (String.mk (content.data.take (MAX_RESPONSE_SIZE - 100)) ++ truncationMarker).length
          = (content.data.take (MAX_RESPONSE_SIZE - 100)).length + truncationMarker.length := by
        show ((content.data.take (MAX_RESPONSE_SIZE - 100)) ++ truncationMarker.data).length = _
        rw [List.length_append, hml]
      rw [h1]
      have h2 : (content.data.take (MAX_RESPONSE_SIZE - 100)).length ≤ MAX_RESPONSE_SIZE - 100 := by
        rw [List.length_take]
        exact Nat.min_le_left _ _
      omega
    · exact ⟨content.data.take (MAX_RESPONSE_SIZE - 100), rfl⟩
  · intro h
    unfold truncateResponse
    rw [if_neg (by omega)]

/-- Witness for C5 at the concrete string one character over the ceiling. -/
theorem c5_truncation_witness :
    exBigString.length > MAX_RESPONSE_SIZE ∧
    (truncateResponse exBigString).length ≤ MAX_RESPONSE_SIZE + truncationMarker.length ∧
    truncationMarker.data <:+ (truncateResponse exBigString).data := by
  have hlen : exBigString.length > MAX_RESPONSE_SIZE := by
    have h1 : exBigString.length = (List.replicate (MAX_RESPONSE_SIZE + 1) 'a').length := rfl
    rw [h1, List.length_replicate]
    omega
  exact ⟨hlen, (c5_truncation exBigString).1 hlen⟩

/-! ## C6 — phase-1 fail-fast of the validator -/

/-- C6: whenever phase 1 fails (the input is not a non-array record, or one
of name/version/tools is missing) `validate` returns only the phase-1
errors — no warnings, and every error is one of the structural findings. -/
theorem c6_phase1_fail_fast (config : JSV)
    (h : ¬ (config.isTruthy = true ∧ config.typeofObject = true ∧ config.isArray = false ∧
      ∀ f ∈ requiredFields, config.hasKey f = true)) :
    validate config = ⟨false, validateBasicStructure config, []⟩ ∧
    validateBasicStructure config ≠ [] ∧
    ∀ e ∈ (validate config).errors,
      (e.field = "config" ∧ (e.message = "Configuration must be an object" ∨
        e.message = "Configuration cannot be an array")) ∨
      ∃ f ∈ requiredFields, e.field = f ∧
        e.message = "Required field \"" ++ f ++ "\" is missing" := by
  have hne : validateBasicStructure config ≠ [] := by
    unfold validateBasicStructure
    by_cases h1 : (!config.isTruthy || !config.typeofObject) = true
    · rw [if_pos h1]; simp
    · rw [if_neg h1]
      by_cases h2 : config.isArray = true
      · rw [if_pos h2]; simp
      · rw [if_neg h2]
        have h1' : config.isTruthy = true ∧ config.typeofObject = true := by
          simpa [Bool.or_eq_true, Bool.not_eq_true'] using h1
        have h2' : config.isArray = false := by
          simpa [Bool.not_eq_true] using h2
        push_neg at h
        obtain ⟨f, hf, hkey⟩ := h h1'.1 h1'.2 h2'
        intro hnil
        rw [List.filterMap_eq_nil] at hnil
        have := hnil f hf
        rw [if_neg (by simpa [Bool.not_eq_true] using hkey)] at this
        exact Option.some_ne_none _ this
  have hval : validate config = ⟨false, validateBasicStructure config, []⟩ := by
    unfold validate
    rw [if_neg (by simpa [List.isEmpty_iff] using hne)]
  refine ⟨hval, hne, ?_⟩
  intro e he
  rw [hval] at he
  simp only at he
  unfold validateBasicStructure at he
  by_cases h1 : (!config.isTruthy || !config.typeofObject) = true
  · rw [if_pos h1] at he
    rcases List.mem_singleton.mp he with rfl
    exact Or.inl ⟨rfl, Or.inl rfl⟩
  · rw [if_neg h1] at he
    by_cases h2 : config.isArray = true
    · rw [if_pos h2] at he
      rcases List.mem_singleton.mp he with rfl
      exact Or.inl ⟨rfl, Or.inr rfl⟩
    · rw [if_neg h2] at he
      rcases List.mem_filterMap.mp he with ⟨f, hf, hsome⟩
      by_cases hk : config.hasKey f = true
      · rw [if_pos hk] at hsome; exact absurd hsome (by simp)
      · rw [if_neg hk] at hsome
        rcases Option.some_inj.mp hsome with rfl
        exact Or.inr ⟨f, hf, rfl, rfl⟩

/-- Witness for C6 at a non-record input. -/
theorem c6_phase1_fail_fast_witness :
    ¬ ((JSV.num 5).isTruthy = true ∧ (JSV.num 5).typeofObject = true ∧
      (JSV.num 5).isArray = false ∧ ∀ f ∈ requiredFields, (JSV.num 5).hasKey f = true) ∧
    validate (JSV.num 5) = ⟨false, validateBasicStructure (JSV.num 5), []⟩ := by
  have hh : ¬ ((JSV.num 5).isTruthy = true ∧ (JSV.num 5).typeofObject = true ∧
      (JSV.num 5).isArray = false ∧ ∀ f ∈ requiredFields, (JSV.num 5).hasKey f = true) := by
    decide
  exact ⟨hh, (c6_phase1_fail_fast (JSV.num 5) hh).1⟩

/-! ## C8 — positional tool normalization -/

/-- C8 counterexample: for the valid positional declaration `[" hi ", h]`
the synthesized description is built from the *raw* name
(`"Tool:  hi "`), not the trimmed one (`"Tool: hi"`), refuting the claim as
stated. -/
theorem c8_counterexample : ¬ c8Claim := by
  intro h
  have h2 := h " hi " .undef (by decide)
  have hd := congrArg MCPTool.description h2
  have hl : (normalizeTool (.arr [.str " hi ", .undef])).description = "Tool:  hi " := rfl
  rw [hl] at hd
  exact absurd hd (by decide)

/-- C8 amended: normalizing a positional declaration `[n, h]` yields name
`n.trim`, description `"Tool: " ++ n` built from the raw name, and the open
default schema; when the declared name carries no surrounding whitespace
this coincides with the claimed `"Tool: " ++ n.trim`. -/
theorem c8_amended (n : String) (h : JSV) :
    normalizeTool (.arr [.str n, h]) = ⟨jsTrim n, "Tool: " ++ n, openSchema, h⟩ ∧
    (jsTrim n = n →
      normalizeTool (.arr [.str n, h]) = ⟨jsTrim n, "Tool: " ++ jsTrim n, openSchema, h⟩) := by
  refine ⟨rfl, ?_⟩
  intro ht
  have h2 : ("Tool: " ++ jsTrim n) = ("Tool: " ++ n) := by rw [ht]
  rw [h2]
  rfl

/-- Witness for C8 (amended) at the whitespace name and at a plain name. -/
theorem c8_amended_witness :
    normalizeTool (.arr [.str " hi ", .undef])
      = ⟨jsTrim (" hi "), "Tool: " ++ " hi ", openSchema, .undef⟩ ∧
    (jsTrim ("hello") = "hello" ∧
      normalizeTool (.arr [.str "hello", exHandlerFn])
        = ⟨jsTrim ("hello"), "Tool: " ++ jsTrim ("hello"), openSchema, exHandlerFn⟩) :=
  ⟨(c8_amended (" hi ") .undef).1, by decide,
    (c8_amended ("hello") exHandlerFn).2 (by decide)⟩

/-! ## C9 — the seen-objects tracker leaks across calls on a fault -/

/-- C9 (code bug): after a call whose structured serialization faults (the
BigInt in cell 0), the visited-composite record survives in
`this.seenObjects`; a later call returning the *non-cyclic* cell 1 is then
encoded as the circular marker instead of its JSON, unlike on a fresh
server. -/
theorem c9_seen_leak :
    (callTool exBugState 0 (.hStr "t0") .hNull).2.2.seenObjects = some [1, 0] ∧
    (callTool exBugState 0 (.hStr "t0") .hNull).1 = .ok ("[object Object]") ∧
    (callTool (callTool exBugState 0 (.hStr "t0") .hNull).2.2 0 (.hStr "t1") .hNull).1
      = .ok ("\"[Circular Reference]\"") ∧
    (callTool exBugState 0 (.hStr "t1") .hNull).1 = .ok ("\x7b\"n\":1\x7d") ∧
    ¬ HasCycle (exBugHeap ++ [.objCell [], .objCell []]) (.hRef 1) := by
  refine ⟨rfl, rfl, rfl, rfl, ?_⟩
  rintro ⟨x, ⟨r, hr, hreach⟩, hcyc⟩
  have hr1 : r = 1 := by
    cases hr
    rfl
  subst hr1
  have hnoedge : ∀ c, ¬ heapEdge (exBugHeap ++ [.objCell [], .objCell []]) 1 c := by
    intro c
    simp [heapEdge, cellAt, exBugHeap, HCell.children, List.getD]
  have hx : x = 1 := by
    rcases (Relation.ReflTransGen.cases_head hreach) with h | ⟨c, hc, _⟩
    · omega
    · exact absurd hc (hnoedge c)
  subst hx
  obtain ⟨b, hb, _⟩ := (Relation.TransGen.head'_iff).1 hcyc
  exact absurd hb (hnoedge b)

/-! ## C10 — sanitization of non-Error, non-string handler faults -/

/-- C10: when the matched handler faults with a value that is neither an
`Error` instance nor a string, the call fails with exactly
`Tool "<name>" failed: An unknown error occurred`; when it faults with an
`Error`, only its top-level message is surfaced after the same prefix. -/
theorem c10_unknown_fault (s : ServerState) (now : Nat) (n : String) (t : ServerTool)
    (args : HVal) (heap1 : Heap) (vargs : HVal)
    (hsd : s.isShuttingDown = false)
    (hc : gateCount s (now / 60000) < maxRequestsPerMinute)
    (hn : ¬ n = "")
    (hfind : s.tools.find? (fun tl => tl.name = n) = some t)
    (hargs : validateToolArguments s.heap args = .ok (heap1, vargs)) :
    (t.handler heap1 vargs = .fault .otherVal →
      (callTool s now (.hStr n) args).1
        = .error (.errObj (toolFailedMsg n ("An unknown error occurred")))) ∧
    (∀ m, t.handler heap1 vargs = .fault (.errObj m) →
      (callTool s now (.hStr n) args).1
        = .error (.errObj (toolFailedMsg n m))) := by
  rw [callTool_gate_pass s now (.hStr n) args hsd hc]
  have hfind' : (bumpCounts s now).tools.find? (fun tl => tl.name = n) = some t := hfind
  have hargs' : validateToolArguments (bumpCounts s now).heap args = .ok (heap1, vargs) := hargs
  constructor
  · intro hout
    rw [callToolNamed_found (bumpCounts s now) n t args hn hfind',
      callToolTry_fault (bumpCounts s now) t args heap1 vargs hargs' .otherVal hout]
    rfl
  · intro m hout
    rw [callToolNamed_found (bumpCounts s now) n t args hn hfind',
      callToolTry_fault (bumpCounts s now) t args heap1 vargs hargs' (.errObj m) hout]
    rfl

/-- Witness for C10 at a concrete server whose tool rejects with a plain
record-like value. -/
theorem c10_unknown_fault_witness :
    exFaultState.isShuttingDown = false ∧
    gateCount exFaultState (0 / 60000) < maxRequestsPerMinute ∧
    ¬ ("bad" : String) = "" ∧
    (callTool exFaultState 0 (.hStr "bad") .hNull).1
      = .error (.errObj ("Tool \"bad\" failed: An unknown error occurred")) := by
  refine ⟨rfl, by decide, by decide, ?_⟩
  exact (c10_unknown_fault exFaultState 0 ("bad") ⟨"bad", "Tool: bad", fun _ _ => .fault .otherVal⟩
    .hNull ([.objCell []]) (.hRef 0) rfl (by decide) (by decide) rfl rfl).1 rfl

/-! ## C3 — order of request validation and handler lookup -/

/-- C3 counterexample: with a known tool name and array-valued arguments the
call is rejected *after* lookup and with the wrapped message
`Tool "hello" failed: Tool arguments must be an object`, not with the bare
argument type error, refuting the claim as stated. -/
theorem c3_counterexample : ¬ c3Claim := by
  intro h
  have h2 := (h exArrState 0 (.hStr "hello") (.hRef 0)).2 ("hello") exToolHello 0
    ([.hNum 1]) rfl rfl rfl rfl
  have h3 : (callTool exArrState 0 (.hStr "hello") (.hRef 0)).1
      = .error (.errObj ("Tool \"hello\" failed: Tool arguments must be an object")) := rfl
  rw [h3] at h2
  have h4 := Thrown.errObj.inj (Except.error.inj h2)
  exact absurd h4 (by decide)

/-- C3 amended: name validation precedes lookup, but argument validation
happens inside the `try` block *after* the handler lookup; with a known tool
name and array-valued arguments the call fails with the type error wrapped
as `Tool "<name>" failed: Tool arguments must be an object`, and the handler
is not invoked. -/
theorem c3_amended (s : ServerState) (now : Nat) (n : String) (t : ServerTool) (r : Nat)
    (elems : List HVal)
    (hsd : s.isShuttingDown = false)
    (hc : gateCount s (now / 60000) < maxRequestsPerMinute)
    (hn : ¬ n = "")
    (hfind : s.tools.find? (fun tl => tl.name = n) = some t)
    (hcell : cellAt s.heap r = .arrCell elems) :
    (callTool s now (.hStr n) (.hRef r)).1
      = .error (.errObj (toolFailedMsg n ("Tool arguments must be an object"))) ∧
    (callTool s now (.hStr n) (.hRef r)).2.1
      = [.ratePass, .nameOk, .lookupOk, .argsReject] ∧
    Ev.handlerRun ∉ (callTool s now (.hStr n) (.hRef r)).2.1 ∧
    occursBefore isNameEv isLookupEv (callTool s now (.hStr n) (.hRef r)).2.1 ∧
    occursBefore isLookupEv isArgsEv (callTool s now (.hStr n) (.hRef r)).2.1 := by
  have hargs : validateToolArguments (bumpCounts s now).heap (.hRef r)
      = .error (.errObj ("Tool arguments must be an object")) := by
    show validateToolArguments s.heap (.hRef r) = _
    simp only [validateToolArguments, hcell]
  have hfind' : (bumpCounts s now).tools.find? (fun tl => tl.name = n) = some t := hfind
  have heval : callTool s now (.hStr n) (.hRef r)
      = (.error (.errObj (toolFailedMsg n ("Tool arguments must be an object"))),
        [.ratePass, .nameOk, .lookupOk, .argsReject], bumpCounts s now) := by
    rw [callTool_gate_pass s now (.hStr n) (.hRef r) hsd hc,
      callToolNamed_found (bumpCounts s now) n t (.hRef r) hn hfind',
      callToolTry_argsReject (bumpCounts s now) t (.hRef r) _ hargs]
    rfl
  rw [heval]
  refine ⟨rfl, rfl, ?_, ?_, ?_⟩
  · show Ev.handlerRun ∉ ([.ratePass, .nameOk, .lookupOk, .argsReject] : List Ev)
    decide
  · show occursBefore isNameEv isLookupEv [.ratePass, .nameOk, .lookupOk, .argsReject]
    decide
  · show occursBefore isLookupEv isArgsEv [.ratePass, .nameOk, .lookupOk, .argsReject]
    decide

/-- Witness for C3 (amended) at the concrete array-arguments call. -/
theorem c3_amended_witness :
    exArrState.isShuttingDown = false ∧
    ¬ ("hello" : String) = "" ∧
    (callTool exArrState 0 (.hStr "hello") (.hRef 0)).1
      = .error (.errObj ("Tool \"hello\" failed: Tool arguments must be an object")) ∧
    occursBefore isLookupEv isArgsEv (callTool exArrState 0 (.hStr "hello") (.hRef 0)).2.1 := by
  have h := c3_amended exArrState 0 ("hello") exToolHello 0 ([.hNum 1]) rfl (by decide)
    (by decide) rfl rfl
  exact ⟨rfl, by decide, h.1, h.2.2.2.2⟩

/-! ## C7 — the handler parameter-count check -/

/-- C7 counterexample: the handler `(\x7ba, b\x7d) => a` declares exactly one
(destructured) parameter (`Function.length = 1`), yet the textual heuristic
counts the comma inside the pattern and emits the blocking
`should accept 0 or 1 parameter` error, refuting the claim that handlers
declaring zero or one parameter never get it. -/
theorem c7_counterexample : ¬ c7Claim := by
  intro h
  have h2 := (h exConfigDestr 0 ⟨"(\x7ba, b\x7d) => a", false, 1⟩ (by decide) rfl).2
    (by decide)
  have herr : (validate exConfigDestr).errors
      = [⟨"tools[0].handler", "Tool handler should accept 0 or 1 parameter, got 2",
          some (.num 2),
          some ("Use: async (args) => \x7b ... \x7d or async () => \x7b ... \x7d")⟩] := rfl
  have hmem : (⟨"tools[0].handler", "Tool handler should accept 0 or 1 parameter, got 2",
      some (.num 2),
      some ("Use: async (args) => \x7b ... \x7d or async () => \x7b ... \x7d")⟩ : Finding)
      ∈ (validate exConfigDestr).errors := by
    rw [herr]
    exact List.mem_singleton_self _
  have h3 := h2 _ hmem
  exact absurd h3 (by decide)

/-- C7 amended: the blocking error is governed by the textual heuristic, not
the declared arity — `validateToolHandler` emits an error whose message
contains `should accept 0 or 1 parameter` exactly when the signature regex
captures a parameter list splitting into more than one non-blank
comma-separated piece (so a destructured single parameter with a comma also
blocks); in particular the spec's scenario `["bad", (a,b) => a]` fails
validation with that message, while simple zero- and one-identifier
parameter lists pass. -/
theorem c7_amended :
    (∀ (f : JSFun) (path : String),
      (∃ e ∈ (validateToolHandler (.fn f) path).1,
        strIncludes e.message paramCountMsgPart = true) ↔
      (∃ cap, sigCapture f.src.data = some cap ∧ jsTrim (String.mk cap) ≠ "" ∧
        paramsCount (jsTrim (String.mk cap)) > 1)) ∧
    (validate exConfigBadArity).isValid = false ∧
    (∃ e ∈ (validate exConfigBadArity).errors,
      e.field = "tools[0].handler" ∧ strIncludes e.message paramCountMsgPart = true) ∧
    (validate exConfigOk).isValid = true ∧
    (validate exConfigDestr).isValid = false := by
  refine ⟨?_, rfl, ?_, rfl, rfl⟩
  · intro f path
    constructor
    · rintro ⟨e, hmem, hinc⟩
      rcases hcap : sigCapture f.src.data with _ | cap
      · simp [validateToolHandler, hcap] at hmem
      · by_cases ht : jsTrim (String.mk cap) = ""
        · simp [validateToolHandler, hcap, ht] at hmem
        · by_cases hcnt : paramsCount (jsTrim (String.mk cap)) > 1
          · exact ⟨cap, rfl, ht, hcnt⟩
          · simp [validateToolHandler, hcap, ht, hcnt] at hmem
    · rintro ⟨cap, hcap, ht, hcnt⟩
      have hpe : (⟨path, "Tool handler should accept 0 or 1 parameter, got "
          ++ toString (paramsCount (jsTrim (String.mk cap))),
          some (.num (paramsCount (jsTrim (String.mk cap)))),
          some ("Use: async (args) => \x7b ... \x7d or async () => \x7b ... \x7d")⟩ : Finding)
          ∈ (validateToolHandler (.fn f) path).1 := by
        simp [validateToolHandler, hcap, ht, hcnt]
      exact ⟨_, hpe, strIncludes_append_left _ _ _ (by decide)⟩
  · exact ⟨⟨"tools[0].handler", "Tool handler should accept 0 or 1 parameter, got 2",
      some (.num 2),
      some ("Use: async (args) => \x7b ... \x7d or async () => \x7b ... \x7d")⟩,
      by rw [show (validate exConfigBadArity).errors
        = [⟨"tools[0].handler", "Tool handler should accept 0 or 1 parameter, got 2",
            some (.num 2),
            some ("Use: async (args) => \x7b ... \x7d or async () => \x7b ... \x7d")⟩] from rfl]
         exact List.mem_singleton_self _,
      rfl, by decide⟩

/-- Witness for C7 (amended): the iff instantiated at the two-parameter
handler of scenario D. -/
theorem c7_amended_witness :
    ∃ e ∈ (validateToolHandler (.fn ⟨"(a,b) => a", false, 2⟩) ("tools[0].handler")).1,
      strIncludes e.message paramCountMsgPart = true :=
  (c7_amended.1 ⟨"(a,b) => a", false, 2⟩ ("tools[0].handler")).2
    ⟨("a,b").data, rfl, by decide, by decide⟩

/-! ## C2 — the rate-limit gate boundary -/

theorem mapGet_cons (x : Nat × Nat) (rest : List (Nat × Nat)) (k : Nat) :
    mapGet (x :: rest) k = if x.1 = k then some x.2 else mapGet rest k := by
  by_cases h : x.1 = k
  · rw [if_pos h]
    unfold mapGet
    rw [List.find?_cons_of_pos _ (by simpa using h)]
    rfl
  · rw [if_neg h]
    unfold mapGet
    rw [List.find?_cons_of_neg _ (by simpa using h)]

theorem mapGet_replace (m : List (Nat × Nat)) (k v : Nat)
    (h : m.any (fun p => p.1 = k) = true) :
    mapGet (m.map (fun p => if p.1 = k then (k, v) else p)) k = some v := by
  induction m with
  | nil => simp at h
  | cons x xs ih =>
    rw [List.map_cons, mapGet_cons]
    by_cases hx : x.1 = k
    · simp [hx]
    · have h' : xs.any (fun p => p.1 = k) = true := by
        rcases List.any_eq_true.mp h with ⟨y, hy, hyk⟩
        rcases List.mem_cons.mp hy with rfl | hm
        · exact absurd (by simpa using hyk) hx
        · exact List.any_eq_true.mpr ⟨y, hm, hyk⟩
      simp only [if_neg hx]
      exact ih h'

theorem mapGet_append_single (m : List (Nat × Nat)) (k v : Nat)
    (h : m.any (fun p => p.1 = k) = false) :
    mapGet (m ++ [(k, v)]) k = some v := by
  induction m with
  | nil =>
    rw [List.nil_append, mapGet_cons]
    simp
  | cons x xs ih =>
    rw [List.cons_append, mapGet_cons]
    have hx : ¬ x.1 = k := by
      intro hk
      have : (x :: xs).any (fun p => p.1 = k) = true :=
        List.any_eq_true.mpr ⟨x, List.mem_cons_self _ _, by simpa using hk⟩
      rw [this] at h
      simp at h
    have h' : xs.any (fun p => p.1 = k) = false := by
      rcases hall : xs.any (fun p => p.1 = k) with _ | _
      · rfl
      · have : (x :: xs).any (fun p => p.1 = k) = true := by
          rcases List.any_eq_true.mp hall with ⟨y, hy, hyk⟩
          exact List.any_eq_true.mpr ⟨y, List.mem_cons_of_mem _ hy, hyk⟩
        rw [this] at h
        simp at h
    rw [if_neg hx]
    exact ih h'

theorem mapGet_mapSet_self (m : List (Nat × Nat)) (k v : Nat) :
    mapGet (mapSet m k v) k = some v := by
  unfold mapSet
  by_cases h : m.any (fun p => p.1 = k) = true
  · rw [if_pos h]
    exact mapGet_replace m k v h
  · rw [if_neg h]
    exact mapGet_append_single m k v (by
      rcases hb : m.any (fun p => p.1 = k) with _ | _
      · rfl
      · exact absurd hb h)

theorem find?_filter_of_imp {α} (l : List α) (p q : α → Bool)
    (h : ∀ x, q x = true → p x = true) : (l.filter p).find? q = l.find? q := by
  induction l with
  | nil => rfl
  | cons x xs ih =>
    rw [List.filter_cons]
    by_cases hq : q x = true
    · rw [if_pos (by simpa using h x hq), List.find?_cons_of_pos _ hq,
        List.find?_cons_of_pos _ hq]
    · by_cases hp : p x = true
      · rw [if_pos (by simpa using hp), List.find?_cons_of_neg _ hq,
          List.find?_cons_of_neg _ hq]
        exact ih
      · rw [if_neg (by simpa using hp), List.find?_cons_of_neg _ hq]
        exact ih

theorem mapGet_mapPrune_self (m : List (Nat × Nat)) (k : Nat) :
    mapGet (mapPrune m k) k = mapGet m k := by
  unfold mapGet mapPrune
  rw [find?_filter_of_imp]
  intro x hx
  have hxk : x.1 = k := by simpa using hx
  simp only [hxk, Bool.not_eq_true', decide_eq_false_iff_not]
  omega

theorem gateCount_bumpCounts (s : ServerState) (now : Nat) :
    gateCount (bumpCounts s now) (now / 60000) = gateCount s (now / 60000) + 1 := by
  have h1 : (bumpCounts s now).requestCounts
      = mapPrune
          (mapSet s.requestCounts (now / 60000)
            ((mapGet s.requestCounts (now / 60000)).getD 0 + 1))
          (now / 60000) := rfl
  unfold gateCount
  rw [h1, mapGet_mapPrune_self, mapGet_mapSet_self]
  rfl

theorem callToolTry_state (s1 : ServerState) (t : ServerTool) (args : HVal) :
    (callToolTry s1 t args).2.2.requestCounts = s1.requestCounts ∧
    (callToolTry s1 t args).2.2.isShuttingDown = s1.isShuttingDown ∧
    (callToolTry s1 t args).2.2.tools = s1.tools := by
  unfold callToolTry
  split
  · exact ⟨rfl, rfl, rfl⟩
  · split <;> exact ⟨rfl, rfl, rfl⟩

theorem callToolNamed_state (s1 : ServerState) (name args : HVal) :
    (callToolNamed s1 name args).2.2.requestCounts = s1.requestCounts ∧
    (callToolNamed s1 name args).2.2.isShuttingDown = s1.isShuttingDown ∧
    (callToolNamed s1 name args).2.2.tools = s1.tools ∧
    Ev.ratePass ∈ (callToolNamed s1 name args).2.1 := by
  unfold callToolNamed
  split
  · split
    · exact ⟨rfl, rfl, rfl, by simp⟩
    · split
      · exact ⟨rfl, rfl, rfl, by simp⟩
      · rename_i t heq
        rcases htry : callToolTry s1 t args with ⟨res, evs, s2⟩
        have h := callToolTry_state s1 t args
        rw [htry] at h
        rcases res with e | content
        · exact ⟨h.1, h.2.1, h.2.2, by simp⟩
        · exact ⟨h.1, h.2.1, h.2.2, by simp⟩
  · exact ⟨rfl, rfl, rfl, by simp⟩

theorem callTool_pass_effects (s : ServerState) (now : Nat) (name args : HVal)
    (hsd : s.isShuttingDown = false)
    (hc : gateCount s (now / 60000) < maxRequestsPerMinute) :
    gateCount (callTool s now name args).2.2 (now / 60000)
      = gateCount s (now / 60000) + 1 ∧
    (callTool s now name args).2.2.isShuttingDown = false ∧
    (callTool s now name args).2.2.tools = s.tools ∧
    Ev.ratePass ∈ (callTool s now name args).2.1 := by
  rw [callTool_gate_pass s now name args hsd hc]
  have h := callToolNamed_state (bumpCounts s now) name args
  refine ⟨?_, ?_, ?_, h.2.2.2⟩
  · show (mapGet (callToolNamed (bumpCounts s now) name args).2.2.requestCounts
      (now / 60000)).getD 0 = _
    rw [h.1]
    exact gateCount_bumpCounts s now
  · rw [h.2.1]
    exact hsd
  · rw [h.2.2.1]
    rfl

theorem runCalls_length (s : ServerState) (reqs : List (Nat × HVal × HVal)) :
    (runCalls s reqs).1.length = reqs.length := by
  induction reqs generalizing s with
  | nil => rfl
  | cons q rest ih =>
    rcases q with ⟨now, name, args⟩
    simp [runCalls, ih]

theorem runCalls_append (s : ServerState) (l1 l2 : List (Nat × HVal × HVal)) :
    runCalls s (l1 ++ l2)
      = ((runCalls s l1).1 ++ (runCalls (runCalls s l1).2 l2).1,
        (runCalls (runCalls s l1).2 l2).2) := by
  induction l1 generalizing s with
  | nil => simp [runCalls]
  | cons q rest ih =>
    rcases q with ⟨now, name, args⟩
    simp [runCalls, ih]

theorem runCalls_same_bucket (b : Nat) (reqs : List (Nat × HVal × HVal)) :
    ∀ (s : ServerState), s.isShuttingDown = false →
    (∀ q ∈ reqs, q.1 / 60000 = b) →
    gateCount s b + reqs.length ≤ maxRequestsPerMinute →
    gateCount (runCalls s reqs).2 b = gateCount s b + reqs.length ∧
    (runCalls s reqs).2.isShuttingDown = false ∧
    (runCalls s reqs).2.tools = s.tools ∧
    ∀ out ∈ (runCalls s reqs).1, Ev.ratePass ∈ out.2 := by
  induction reqs with
  | nil =>
    intro s hsd _ _
    exact ⟨rfl, hsd, rfl, by intro out h; exact absurd h (List.not_mem_nil _)⟩
  | cons q rest ih =>
    intro s hsd hb hcap
    rcases q with ⟨now, name, args⟩
    have hbq : now / 60000 = b := hb _ (List.mem_cons_self _ _)
    have hc : gateCount s (now / 60000) < maxRequestsPerMinute := by
      rw [hbq]
      have := hcap
      rw [List.length_cons] at this
      omega
    have hstep := callTool_pass_effects s now name args hsd hc
    rw [hbq] at hstep
    have hrest := ih (callTool s now name args).2.2 hstep.2.1
      (fun q hq => hb q (List.mem_cons_of_mem _ hq))
      (by rw [hstep.1]; rw [List.length_cons] at hcap; omega)
    refine ⟨?_, hrest.2.1, ?_, ?_⟩
    · show gateCount (runCalls (callTool s now name args).2.2 rest).2 b = _
      rw [hrest.1, hstep.1, List.length_cons]
      omega
    · show (runCalls (callTool s now name args).2.2 rest).2.tools = s.tools
      rw [hrest.2.2.1, hstep.2.2.1]
    · intro out hout
      rcases List.mem_cons.mp hout with rfl | hm
      · exact hstep.2.2.2
      · exact hrest.2.2.2 out hm

theorem getD_append_len {α} (l1 l2 : List α) (d : α) (n : Nat) (h : n = l1.length) :
    (l1 ++ l2).getD n d = l2.getD 0 d := by
  subst h
  induction l1 with
  | nil => rfl
  | cons x xs ih => simpa using ih

/-- C2: starting from a fresh bucket, the first 100 same-bucket calls all
pass the rate-limit gate, each incrementing the bucket count by exactly one,
and the 101st call fails with the rate-limit error, without invoking any
handler and without changing the server state. -/
theorem c2_rate_limit (s : ServerState) (b : Nat) (reqs : List (Nat × HVal × HVal))
    (hsd : s.isShuttingDown = false) (h0 : gateCount s b = 0)
    (hb : ∀ q ∈ reqs, q.1 / 60000 = b) :
    (∀ k, k ≤ maxRequestsPerMinute → k ≤ reqs.length →
      gateCount (runCalls s (reqs.take k)).2 b = k ∧
      ∀ out ∈ (runCalls s (reqs.take k)).1, Ev.ratePass ∈ out.2) ∧
    (maxRequestsPerMinute < reqs.length →
      (runCalls s reqs).1.getD maxRequestsPerMinute (.ok "", [])
        = (.error (.errObj ("Rate limit exceeded: " ++ toString maxRequestsPerMinute
            ++ " requests per minute")), [.rateReject]) ∧
      Ev.handlerRun ∉ ((runCalls s reqs).1.getD maxRequestsPerMinute (.ok "", [])).2 ∧
      (runCalls s (reqs.take (maxRequestsPerMinute + 1))).2
        = (runCalls s (reqs.take maxRequestsPerMinute)).2) := by
  constructor
  · intro k hk hklen
    have h := runCalls_same_bucket b (reqs.take k) s hsd
      (fun q hq => hb q (List.take_subset _ _ hq))
      (by rw [h0, List.length_take]; omega)
    refine ⟨?_, h.2.2.2⟩
    rw [h.1, h0, List.length_take]
    omega
  · intro hlen
    have htake := runCalls_same_bucket b (reqs.take maxRequestsPerMinute) s hsd
      (fun q hq => hb q (List.take_subset _ _ hq))
      (by rw [h0, List.length_take]; omega)
    have hcount : gateCount (runCalls s (reqs.take maxRequestsPerMinute)).2 b
        = maxRequestsPerMinute := by
      rw [htake.1, h0, List.length_take]
      omega
    rcases hq2 : reqs[maxRequestsPerMinute] with ⟨now, nm, ag⟩
    have hq : reqs.drop maxRequestsPerMinute
        = reqs[maxRequestsPerMinute] :: reqs.drop (maxRequestsPerMinute + 1) :=
      List.drop_eq_getElem_cons hlen
    rw [hq2] at hq
    have hqmem : reqs[maxRequestsPerMinute] ∈ reqs := List.getElem_mem hlen
    rw [hq2] at hqmem
    have hbq : now / 60000 = b := hb _ hqmem
    have hreject := callTool_gate_reject (runCalls s (reqs.take maxRequestsPerMinute)).2
      now nm ag htake.2.1 (by rw [hbq, hcount])
    have hsplit := runCalls_append s (reqs.take maxRequestsPerMinute)
      (reqs.drop maxRequestsPerMinute)
    rw [List.take_append_drop] at hsplit
    have houts1len : (runCalls s (reqs.take maxRequestsPerMinute)).1.length
        = maxRequestsPerMinute := by
      rw [runCalls_length, List.length_take]
      omega
    have hgot : (runCalls s reqs).1.getD maxRequestsPerMinute (.ok "", [])
        = (.error (.errObj ("Rate limit exceeded: " ++ toString maxRequestsPerMinute
            ++ " requests per minute")), [.rateReject]) := by
      rw [hsplit]
      show ((runCalls s (reqs.take maxRequestsPerMinute)).1
        ++ (runCalls (runCalls s (reqs.take maxRequestsPerMinute)).2
            (reqs.drop maxRequestsPerMinute)).1).getD maxRequestsPerMinute (.ok "", [])
        = _
      rw [getD_append_len _ _ _ _ houts1len.symm, hq]
      simp only [runCalls, hreject, List.getD_cons_zero]
    refine ⟨hgot, by rw [hgot]; decide, ?_⟩
    have htaksucc : reqs.take (maxRequestsPerMinute + 1)
        = reqs.take maxRequestsPerMinute ++ [(now, nm, ag)] := by
      rw [List.take_succ, List.getElem?_eq_getElem hlen, hq2]
      rfl
    rw [htaksucc, runCalls_append]
    show (runCalls (runCalls s (reqs.take maxRequestsPerMinute)).2 [(now, nm, ag)]).2 = _
    simp only [runCalls, hreject]

/-- Witness for C2: a fresh server and 101 same-bucket calls; the 101st
response is the rate-limit error. -/
theorem c2_rate_limit_witness :
    exFreshState.isShuttingDown = false ∧
    gateCount exFreshState 0 = 0 ∧
    (∀ q ∈ exManyReqs, q.1 / 60000 = 0) ∧
    (runCalls exFreshState exManyReqs).1.getD maxRequestsPerMinute (.ok "", [])
      = (.error (.errObj ("Rate limit exceeded: " ++ toString maxRequestsPerMinute
          ++ " requests per minute")), [.rateReject]) := by
  have hb : ∀ q ∈ exManyReqs, q.1 / 60000 = 0 := by
    intro q hq
    rw [List.eq_of_mem_replicate hq]
    rfl
  refine ⟨rfl, rfl, hb, ?_⟩
  exact ((c2_rate_limit exFreshState 0 exManyReqs rfl rfl hb).2 (by decide)).1

/-! ## C1 — duplicate tool names and builder uniqueness -/

theorem vtn_dup (nm path : String) (names : List String)
    (h1 : ¬ jsTrim nm = "") (h2 : names.contains (jsTrim nm) = true) :
    validateToolName (.str nm) path names
      = ([⟨path, dupMsg (jsTrim nm), some (.str nm),
          some ("Each tool must have a unique name")⟩], [], names) := by
  unfold dupMsg
  simp only [validateToolName, if_neg h1, h2, if_pos]

theorem vtn_fresh (nm path : String) (names : List String)
    (h1 : ¬ jsTrim nm = "") (h2 : names.contains (jsTrim nm) = false) :
    (validateToolName (.str nm) path names).1 = []
      ∧ (validateToolName (.str nm) path names).2.2 = names ++ [jsTrim nm] := by
  have h2m : jsTrim nm ∉ names := by simpa using h2
  constructor <;> simp [validateToolName, h1, h2m]

theorem vtn_extends (name : JSV) (path : String) (names : List String) :
    ∃ added, (validateToolName name path names).2.2 = names ++ added := by
  rcases name with _ | _ | b | n | s | el | fs | f
  case str =>
    by_cases h1 : jsTrim s = ""
    · exact ⟨[], by simp [validateToolName, h1]⟩
    · by_cases h2 : names.contains (jsTrim s) = true
      · exact ⟨[], by rw [vtn_dup s path names h1 h2]; simp⟩
      · exact ⟨[jsTrim s],
          (vtn_fresh s path names h1 (by simpa using h2)).2⟩
  all_goals exact ⟨[], by simp [validateToolName]⟩

theorem declName_arr (elems : List JSV) (nm : String)
    (h : toolDeclaredName (.arr elems) = some nm) :
    elems.length = 2 ∧ elems.getD 0 .undef = .str nm := by
  by_cases hl : elems.length = 2
  · refine ⟨hl, ?_⟩
    simp only [toolDeclaredName, if_pos hl] at h
    rcases he : elems.getD 0 .undef with _ | _ | b | n | s | el | fs | f <;> rw [he] at h <;>
      simp at h
    rw [h]
  · simp [toolDeclaredName, hl] at h

theorem declName_obj (fs : List (String × JSV)) (nm : String)
    (h : toolDeclaredName (.obj fs) = some nm) :
    (JSV.obj fs).getField ("name") = .str nm := by
  simp only [toolDeclaredName] at h
  rcases he : (JSV.obj fs).getField ("name") with _ | _ | b | n | s | el | f2 | f <;>
    rw [he] at h <;> simp at h
  rw [h]

theorem validateTool_arr_errs (elems : List JSV) (i : Nat) (names : List String)
    (hl : elems.length = 2) :
    validateTool (.arr elems) i names
      = ((validateToolName (elems.getD 0 .undef) ("tools[" ++ toString i ++ "]" ++ ".name") names).1
          ++ (validateToolHandler (elems.getD 1 .undef) ("tools[" ++ toString i ++ "]" ++ ".handler")).1,
        (validateToolName (elems.getD 0 .undef) ("tools[" ++ toString i ++ "]" ++ ".name") names).2.1
          ++ (validateToolHandler (elems.getD 1 .undef) ("tools[" ++ toString i ++ "]" ++ ".handler")).2,
        (validateToolName (elems.getD 0 .undef) ("tools[" ++ toString i ++ "]" ++ ".name") names).2.2) := by
  simp only [validateTool, if_neg (not_not_intro hl)]

theorem validateTool_dup_err (tool : JSV) (i : Nat) (names : List String) (t : String)
    (hw : wellNamed tool t) (hdup : names.contains t = true) :
    ∃ e ∈ (validateTool tool i names).1, e.message = dupMsg t := by
  obtain ⟨nm, hdecl, htrim, hne⟩ := hw
  subst htrim
  rcases tool with _ | _ | b | n | s | elems | fs | f
  case arr =>
    obtain ⟨hl, hname⟩ := declName_arr elems nm hdecl
    rw [validateTool_arr_errs elems i names hl, hname,
      vtn_dup nm _ names hne hdup]
    exact ⟨_, List.mem_append_left _ (List.mem_singleton_self _), rfl⟩
  case obj =>
    have hname := declName_obj fs nm hdecl
    refine ⟨⟨"tools[" ++ toString i ++ "]" ++ ".name", dupMsg (jsTrim nm), some (.str nm),
      some ("Each tool must have a unique name")⟩, ?_, rfl⟩
    show _ ∈ (validateTool (.obj fs) i names).1
    simp only [validateTool]
    rw [hname, vtn_dup nm _ names hne hdup]
    exact List.mem_append_left _ (List.mem_append_left _
      (List.mem_append_left _ (List.mem_singleton_self _)))
  all_goals exact absurd hdecl (by simp [toolDeclaredName])

theorem validateTool_extends (tool : JSV) (i : Nat) (names : List String) :
    ∃ added, (validateTool tool i names).2.2 = names ++ added := by
  rcases tool with _ | _ | b | n | s | elems | fs | f
  case arr =>
    by_cases hl : elems.length = 2
    · rw [validateTool_arr_errs elems i names hl]
      exact vtn_extends _ _ names
    · exact ⟨[], by simp [validateTool, hl]⟩
  case obj =>
    simp only [validateTool]
    exact vtn_extends _ _ names
  all_goals exact ⟨[], by simp [validateTool]⟩

theorem validateTool_fresh_adds (tool : JSV) (i : Nat) (names : List String) (t : String)
    (hw : wellNamed tool t) (hfresh : names.contains t = false) :
    t ∈ (validateTool tool i names).2.2 := by
  obtain ⟨nm, hdecl, htrim, hne⟩ := hw
  subst htrim
  rcases tool with _ | _ | b | n | s | elems | fs | f
  case arr =>
    obtain ⟨hl, hname⟩ := declName_arr elems nm hdecl
    rw [validateTool_arr_errs elems i names hl, hname,
      (vtn_fresh nm _ names hne hfresh).2]
    exact List.mem_append_right _ (List.mem_singleton_self _)
  case obj =>
    have hname := declName_obj fs nm hdecl
    show _ ∈ (validateTool (.obj fs) i names).2.2
    simp only [validateTool]
    rw [hname, (vtn_fresh nm _ names hne hfresh).2]
    exact List.mem_append_right _ (List.mem_singleton_self _)
  all_goals exact absurd hdecl (by simp [toolDeclaredName])

theorem go_dup : ∀ (ts : List JSV) (i0 : Nat) (names : List String) (t : String),
    ((∃ a l2, (∃ l1, ts = l1 ++ a :: l2) ∧ wellNamed a t ∧ ∃ b ∈ l2, wellNamed b t) ∨
      (t ∈ names ∧ ∃ tool ∈ ts, wellNamed tool t)) →
    ∃ e ∈ (validateToolsGo ts i0 names).1, e.message = dupMsg t := by
  intro ts
  induction ts with
  | nil =>
    intro i0 names t hyp
    rcases hyp with ⟨a, l2, ⟨l1, hsplit⟩, _, _⟩ | ⟨_, tool, htool, _⟩
    · exact absurd hsplit (by simp)
    · exact absurd htool (List.not_mem_nil _)
  | cons tool rest ih =>
    intro i0 names t hyp
    have hgo : (validateToolsGo (tool :: rest) i0 names).1
        = (validateTool tool i0 names).1
          ++ (validateToolsGo rest (i0 + 1) (validateTool tool i0 names).2.2).1 := rfl
    rcases hyp with ⟨a, l2, ⟨l1, hsplit⟩, hwa, b, hb, hwb⟩ | ⟨hmem, tool', htool', hw⟩
    · rcases l1 with _ | ⟨x, l1'⟩
      · rw [List.nil_append] at hsplit
        injection hsplit with h1 h2
        subst h1
        subst h2
        by_cases hdup : names.contains t = true
        · obtain ⟨e, hmem', hmsg⟩ := validateTool_dup_err tool i0 names t hwa hdup
          exact ⟨e, by rw [hgo]; exact List.mem_append_left _ hmem', hmsg⟩
        · have hfr : names.contains t = false := by simpa using hdup
          have hadd := validateTool_fresh_adds tool i0 names t hwa hfr
          obtain ⟨e, hmem', hmsg⟩ := ih (i0 + 1) (validateTool tool i0 names).2.2 t
            (Or.inr ⟨hadd, b, hb, hwb⟩)
          exact ⟨e, by rw [hgo]; exact List.mem_append_right _ hmem', hmsg⟩
      · rw [List.cons_append] at hsplit
        injection hsplit with h1 h2
        subst h1
        obtain ⟨e, hmem', hmsg⟩ := ih (i0 + 1) (validateTool tool i0 names).2.2 t
          (Or.inl ⟨a, l2, ⟨l1', h2⟩, hwa, b, hb, hwb⟩)
        exact ⟨e, by rw [hgo]; exact List.mem_append_right _ hmem', hmsg⟩
    · rcases List.mem_cons.mp htool' with rfl | hm
      · obtain ⟨e, hmem', hmsg⟩ := validateTool_dup_err tool' i0 names t hw
          (by simpa using hmem)
        exact ⟨e, by rw [hgo]; exact List.mem_append_left _ hmem', hmsg⟩
      · obtain ⟨added, hnames⟩ := validateTool_extends tool i0 names
        obtain ⟨e, hmem', hmsg⟩ := ih (i0 + 1) (validateTool tool i0 names).2.2 t
          (Or.inr ⟨by rw [hnames]; exact List.mem_append_left _ hmem, tool', hm, hw⟩)
        exact ⟨e, by rw [hgo]; exact List.mem_append_right _ hmem', hmsg⟩

theorem vtn_ok (name : JSV) (path : String) (names : List String)
    (h : (validateToolName name path names).1 = []) :
    ∃ s, name = .str s ∧ ¬ jsTrim s = "" ∧ names.contains (jsTrim s) = false ∧
      (validateToolName name path names).2.2 = names ++ [jsTrim s] := by
  rcases name with _ | _ | b | n | s | el | fs | f
  case str =>
    by_cases h1 : jsTrim s = ""
    · simp [validateToolName, h1] at h
    · by_cases h2 : names.contains (jsTrim s) = true
      · rw [vtn_dup s path names h1 h2] at h
        simp at h
      · have h2' : names.contains (jsTrim s) = false := by simpa using h2
        exact ⟨s, rfl, h1, h2', (vtn_fresh s path names h1 h2').2⟩
  all_goals simp [validateToolName] at h

theorem validateTool_ok (tool : JSV) (i : Nat) (names : List String)
    (h : (validateTool tool i names).1 = []) :
    ∃ nm, toolDeclaredName tool = some nm ∧ ¬ jsTrim nm = "" ∧
      names.contains (jsTrim nm) = false ∧
      (validateTool tool i names).2.2 = names ++ [jsTrim nm] ∧
      normName tool = jsTrim nm := by
  rcases tool with _ | _ | b | n | s | elems | fs | f
  case arr =>
    by_cases hl : elems.length = 2
    · rw [validateTool_arr_errs elems i names hl] at h ⊢
      obtain ⟨h1, _⟩ := List.append_eq_nil.mp h
      obtain ⟨s, hname, hne, hfr, hnames⟩ := vtn_ok _ _ names h1
      refine ⟨s, ?_, hne, hfr, by rw [hnames], ?_⟩
      · simp only [toolDeclaredName, if_pos hl, hname]
      · show (normalizeTool (.arr elems)).name = jsTrim s
        simp only [normalizeTool, hname, jsvStr]
    · simp [validateTool, hl] at h
  case obj =>
    have hsplit : (validateTool (.obj fs) i names).1
        = (validateToolName ((JSV.obj fs).getField ("name"))
            ("tools[" ++ toString i ++ "]" ++ ".name") names).1
          ++ ((validateToolHandler ((JSV.obj fs).getField ("handler"))
            ("tools[" ++ toString i ++ "]" ++ ".handler")).1
          ++ ((validateToolDescription ((JSV.obj fs).getField ("description"))
            ("tools[" ++ toString i ++ "]" ++ ".description")).1
          ++ (validateToolSchema ((JSV.obj fs).getField ("schema"))
            ("tools[" ++ toString i ++ "]" ++ ".schema")).1)) := by
      simp [validateTool]
    rw [hsplit] at h
    obtain ⟨h1, _⟩ := List.append_eq_nil.mp h
    obtain ⟨s, hname, hne, hfr, hnames⟩ := vtn_ok _ _ names h1
    refine ⟨s, ?_, hne, hfr, ?_, ?_⟩
    · simp only [toolDeclaredName, hname]
    · show (validateTool (.obj fs) i names).2.2 = _
      simp only [validateTool]
      rw [hnames]
    · show (normalizeTool (.obj fs)).name = jsTrim s
      simp only [normalizeTool, hname, jsvStr]
  all_goals simp [validateTool] at h

theorem go_ok : ∀ (ts : List JSV) (i0 : Nat) (names : List String),
    (validateToolsGo ts i0 names).1 = [] →
    (validateToolsGo ts i0 names).2.2.1 = names ++ ts.map normName ∧
    (names.Nodup → (names ++ ts.map normName).Nodup) ∧
    ∀ tool ∈ ts, ∃ nm, toolDeclaredName tool = some nm ∧
      normName tool = jsTrim nm ∧ ¬ jsTrim nm = "" := by
  intro ts
  induction ts with
  | nil =>
    intro i0 names _
    refine ⟨by simp [validateToolsGo], fun hn => by simpa using hn, by simp⟩
  | cons tool rest ih =>
    intro i0 names h
    have hgo1 : (validateToolsGo (tool :: rest) i0 names).1
        = (validateTool tool i0 names).1
          ++ (validateToolsGo rest (i0 + 1) (validateTool tool i0 names).2.2).1 := rfl
    rw [hgo1] at h
    obtain ⟨h1, h2⟩ := List.append_eq_nil.mp h
    obtain ⟨nm, hdecl, hne, hfresh, hnames, hnorm⟩ := validateTool_ok tool i0 names h1
    obtain ⟨ihnames, ihnodup, ihtools⟩ := ih (i0 + 1) (validateTool tool i0 names).2.2 h2
    have hmapcons : (tool :: rest).map normName = jsTrim nm :: rest.map normName := by
      rw [List.map_cons, hnorm]
    have hgonames : (validateToolsGo (tool :: rest) i0 names).2.2.1
        = (validateToolsGo rest (i0 + 1) (validateTool tool i0 names).2.2).2.2.1 := rfl
    refine ⟨?_, ?_, ?_⟩
    · rw [hgonames, ihnames, hnames, hmapcons, List.append_assoc, List.singleton_append]
    · intro hnd
      have hnd' : ((validateTool tool i0 names).2.2).Nodup := by
        rw [hnames]
        rw [List.nodup_append]
        refine ⟨hnd, List.nodup_singleton _, ?_⟩
        intro a ha hb
        rcases List.mem_singleton.mp hb with rfl
        have hc : names.contains (jsTrim nm) = true := by simpa using ha
        rw [hc] at hfresh
        exact Bool.noConfusion hfresh
      have := ihnodup hnd'
      rw [hnames, List.append_assoc, List.singleton_append] at this
      rw [hmapcons]
      exact this
    · intro tool' htool'
      rcases List.mem_cons.mp htool' with rfl | hm
      · exact ⟨nm, hdecl, hnorm, hne⟩
      · exact ihtools tool' hm

theorem validate_ok_parts (config : JSV) (h : (validate config).isValid = true) :
    validateBasicStructure config = [] ∧
    (validateTools (config.getField ("tools"))).1 = [] := by
  by_cases h1 : (validateBasicStructure config).isEmpty = true
  · have h2 : (validate config).errors
        = (validateName (config.getField ("name"))).1
          ++ (validateVersion (config.getField ("version"))).1
          ++ (validateDescription (config.getField ("description"))).1
          ++ (validateTools (config.getField ("tools"))).1 := by
      unfold validate
      rw [if_pos h1]
    have h3 : (validate config).isValid = (validate config).errors.isEmpty := by
      unfold validate
      rw [if_pos h1]
    rw [h3, h2] at h
    have h4 := List.isEmpty_iff.mp h
    obtain ⟨h5, h6⟩ := List.append_eq_nil.mp h4
    exact ⟨List.isEmpty_iff.mp h1, h6⟩
  · exfalso
    have : (validate config).isValid = false := by
      unfold validate
      rw [if_neg h1]
    rw [this] at h
    exact Bool.noConfusion h

theorem dropWhile_head_not (p : Char → Bool) :
    ∀ (l : List Char) (x : Char) (xs : List Char),
    l.dropWhile p = x :: xs → p x = false := by
  intro l
  induction l with
  | nil => intro x xs h; simp [List.dropWhile] at h
  | cons c cs ih =>
    intro x xs h
    rw [List.dropWhile_cons] at h
    by_cases hc : p c = true
    · rw [if_pos hc] at h
      exact ih x xs h
    · rw [if_neg hc] at h
      injection h with h1 _
      rw [← h1]
      simpa using hc

theorem jsTrim_eq_empty_iff (y : String) :
    jsTrim y = "" ↔ ∀ c ∈ y.data, jsWs c = true := by
  constructor
  · intro h c hc
    have hdata : ((y.data.dropWhile jsWs).reverse.dropWhile jsWs).reverse = [] :=
      congrArg String.data h
    rw [List.reverse_eq_nil_iff, List.dropWhile_eq_nil_iff] at hdata
    have hsplit : y.data.takeWhile jsWs ++ y.data.dropWhile jsWs = y.data :=
      List.takeWhile_append_dropWhile jsWs y.data
    rcases List.mem_append.mp (by rw [hsplit]; exact hc) with h1 | h2
    · exact List.mem_takeWhile_imp h1
    · exact hdata c (List.mem_reverse.mpr h2)
  · intro h
    have h1 : y.data.dropWhile jsWs = [] :=
      List.dropWhile_eq_nil_iff.mpr (fun x hx => h x hx)
    show String.mk _ = ""
    rw [h1]
    rfl

theorem jsTrim_trim_ne (x : String) (h : jsTrim x ≠ "") : jsTrim (jsTrim x) ≠ "" := by
  rcases hX : (x.data.dropWhile jsWs).reverse.dropWhile jsWs with _ | ⟨c, cs⟩
  · exfalso
    apply h
    show String.mk ((x.data.dropWhile jsWs).reverse.dropWhile jsWs).reverse = ""
    rw [hX]
    rfl
  · have hc : jsWs c = false := dropWhile_head_not _ _ _ _ hX
    intro habs
    have hall := (jsTrim_eq_empty_iff _).mp habs
    have hcmem : c ∈ (jsTrim x).data := by
      show c ∈ ((x.data.dropWhile jsWs).reverse.dropWhile jsWs).reverse
      rw [hX]
      exact List.mem_reverse.mpr (List.mem_cons_self _ _)
    rw [hall c hcmem] at hc
    exact Bool.noConfusion hc

/-- C1 counterexample: a configuration with two tools both named `"a"` but
missing the required `name` field fails phase 1, so `validate` reports only
the missing-field error — no blocking error naming the duplicate — refuting
the claim as stated. -/
theorem c1_counterexample : ¬ c1Claim := by
  intro h
  obtain ⟨-, e, hmem, hmsg⟩ := h.1 exConfigDupNoName 0 1 ("a") ("a")
    (by decide) (by decide) rfl rfl rfl
  have herr : (validate exConfigDupNoName).errors
      = [⟨"name", "Required field \"name\" is missing", none,
          some ("Add name: \"...\"")⟩] := rfl
  rw [herr] at hmem
  rcases List.mem_singleton.mp hmem with rfl
  exact absurd hmsg (by decide)

/-- C1 (amended): when phase 1 passes (so the tool validators actually run),
any two tools (in either declaration form) whose declared names are equal
and non-empty after trimming make `validate` return `isValid = false` with a
blocking error naming the duplicate; and every configuration accepted by
`defineMCP` yields tool names that are non-empty after trimming and pairwise
distinct.  The amendment adds the phase-1 and non-emptiness preconditions
missing from the claim as stated. -/
theorem c1_amended :
    (∀ (config : JSV) (i j : Nat) (n m : String),
      validateBasicStructure config = [] →
      i < j → j < (configToolsList config).length →
      declNameAt config i = some n → declNameAt config j = some m →
      jsTrim n = jsTrim m → jsTrim m ≠ "" →
      (validate config).isValid = false ∧
        ∃ e ∈ (validate config).errors, e.message = dupMsg (jsTrim m)) ∧
    (∀ (config : JSV) (out : MCPConfig), defineMCP config = .ok out →
      (∀ t ∈ out.tools, jsTrim t.name ≠ "") ∧
      (out.tools.map MCPTool.name).Nodup) := by
  constructor
  · intro config i j n m hph hij hj hdi hdj htr hne
    rcases hts : config.getField ("tools") with _ | _ | b | nn | ss | ts | fs | f
    case arr =>
      have htl : configToolsList config = ts := by
        unfold configToolsList
        rw [hts]
      rw [htl] at hj
      have hi : i < ts.length := lt_trans hij hj
      have hdi' : toolDeclaredName ts[i] = some n := by
        unfold declNameAt at hdi
        rw [htl, List.getD_eq_getElem ts .undef hi] at hdi
        exact hdi
      have hdj' : toolDeclaredName ts[j] = some m := by
        unfold declNameAt at hdj
        rw [htl, List.getD_eq_getElem ts .undef hj] at hdj
        exact hdj
      have hwi : wellNamed ts[i] (jsTrim m) := ⟨n, hdi', htr, hne⟩
      have hwj : wellNamed ts[j] (jsTrim m) := ⟨m, hdj', rfl, hne⟩
      have hsplit : ts = ts.take i ++ ts[i] :: ts.drop (i + 1) := by
        conv_lhs => rw [← List.take_append_drop i ts]
        rw [List.drop_eq_getElem_cons hi]
      have hjm : ts[j] ∈ ts.drop (i + 1) := by
        have hk : j - (i + 1) < (ts.drop (i + 1)).length := by
          rw [List.length_drop]
          omega
        have hge : (ts.drop (i + 1))[j - (i + 1)] = ts[j] := by
          rw [List.getElem_drop]
          congr 1
          omega
        rw [← hge]
        exact List.getElem_mem hk
      obtain ⟨e, hem, hmsg⟩ := go_dup ts 0 [] (jsTrim m)
        (Or.inl ⟨ts[i], ts.drop (i + 1), ⟨ts.take i, hsplit⟩, hwi, ts[j], hjm, hwj⟩)
      have hts0 : ¬ ts.length = 0 := by omega
      have he5 : (validateTools (config.getField ("tools"))).1
          = (validateToolsGo ts 0 []).1 := by
        rw [hts]
        simp only [validateTools]
        rw [if_neg hts0]
      have hph' : (validateBasicStructure config).isEmpty = true := by
        rw [hph]
        rfl
      have herrs : (validate config).errors
          = (validateName (config.getField ("name"))).1
            ++ (validateVersion (config.getField ("version"))).1
            ++ (validateDescription (config.getField ("description"))).1
            ++ (validateTools (config.getField ("tools"))).1 := by
        unfold validate
        rw [if_pos hph']
      have hmem : e ∈ (validate config).errors := by
        rw [herrs]
        refine List.mem_append_right _ ?_
        rw [he5]
        exact hem
      have hiv : (validate config).isValid = (validate config).errors.isEmpty := by
        unfold validate
        rw [if_pos hph']
      refine ⟨?_, e, hmem, hmsg⟩
      rw [hiv]
      rcases he : (validate config).errors with _ | ⟨a, l⟩
      · rw [he] at hmem
        simp at hmem
      · rfl
    all_goals
      exfalso
      unfold configToolsList at hj
      rw [hts] at hj
      simp at hj
  · intro config out hok
    have hval : (validate config).isValid = true := by
      rcases hv : (validate config).isValid
      · exfalso
        unfold defineMCP at hok
        rw [if_neg (by rw [hv]; exact Bool.false_ne_true)] at hok
        exact Except.noConfusion hok
      · rfl
    have htools : out.tools = (configToolsList config).map normalizeTool := by
      unfold defineMCP at hok
      rw [if_pos hval] at hok
      injection hok with h1
      rw [← h1]
    obtain ⟨hph, hts0⟩ := validate_ok_parts config hval
    rcases hts : config.getField ("tools") with _ | _ | b | nn | ss | ts | fs | f
    case undef =>
      have htl : configToolsList config = [] := by
        unfold configToolsList
        rw [hts]
      rw [htools, htl]
      exact ⟨by simp, by simp⟩
    case arr =>
      have htl : configToolsList config = ts := by
        unfold configToolsList
        rw [hts]
      by_cases h0 : ts.length = 0
      · exfalso
        rw [hts] at hts0
        simp only [validateTools] at hts0
        rw [if_pos h0] at hts0
        simp at hts0
      · have hgo : (validateToolsGo ts 0 []).1 = [] := by
          rw [hts] at hts0
          simp only [validateTools] at hts0
          rw [if_neg h0] at hts0
          exact hts0
        obtain ⟨hnames, hnodup, htls⟩ := go_ok ts 0 [] hgo
        constructor
        · intro t htm
          rw [htools, htl] at htm
          obtain ⟨tool, htoolm, rfl⟩ := List.mem_map.mp htm
          obtain ⟨nm, -, hnn, hne⟩ := htls tool htoolm
          show jsTrim (normalizeTool tool).name ≠ ""
          have hname : (normalizeTool tool).name = jsTrim nm := hnn
          rw [hname]
          exact jsTrim_trim_ne nm hne
        · rw [htools, htl, List.map_map]
          have h2 := hnodup List.nodup_nil
          rw [List.nil_append] at h2
          exact h2
    all_goals
      exfalso
      rw [hts] at hts0
      simp [validateTools] at hts0

/-- Witness for the amended C1: the duplicate-name configuration
`exConfigDup` is rejected with a duplicate error, and the accepted
configuration `exConfigOk` yields a non-empty, duplicate-free tool list. -/
theorem c1_amended_witness :
    ((validate exConfigDup).isValid = false ∧
      ∃ e ∈ (validate exConfigDup).errors, e.message = dupMsg ("a")) ∧
    ((∀ t ∈ [(⟨"hello", "Tool: hello", openSchema, exHandlerFn⟩ : MCPTool)],
        jsTrim t.name ≠ "") ∧
      (([(⟨"hello", "Tool: hello", openSchema, exHandlerFn⟩ : MCPTool)].map
        MCPTool.name).Nodup)) := by
  refine ⟨c1_amended.1 exConfigDup 0 1 ("a") ("a") rfl (by decide) (by decide)
    rfl rfl rfl (by decide), ?_⟩
  exact c1_amended.2 exConfigOk
    ⟨.str "T", .str "1.0.0", .undef,
      [⟨"hello", "Tool: hello", openSchema, exHandlerFn⟩]⟩ rfl

theorem charsHasSub_append_right (pat l l' : List Char) (h : charsHasSub pat l' = true) :
    charsHasSub pat (l ++ l') = true := by
  induction l with
  | nil => exact h
  | cons c rest ih =>
    simp only [List.cons_append, charsHasSub, Bool.or_eq_true]
    exact Or.inr ih

/-- `strIncludes` is stable under prepending to the haystack. -/
theorem strIncludes_append_right (s t pat : String) (h : strIncludes t pat = true) :
    strIncludes (s ++ t) pat = true := by
  have hd : (s ++ t).data = s.data ++ t.data := rfl
  unfold strIncludes at h ⊢
  rw [hd]
  exact charsHasSub_append_right _ _ _ h

/-- A substring of one joined element is a substring of the whole join. -/
theorem joinSep_includes (sep pat : String) :
    ∀ (ps : List String) (p : String), p ∈ ps → strIncludes p pat = true →
    strIncludes (joinSep sep ps) pat = true := by
  intro ps
  induction ps with
  | nil => intro p hp; exact absurd hp (List.not_mem_nil _)
  | cons x rest ih =>
    intro p hp hinc
    cases rest with
    | nil =>
      rcases List.mem_singleton.mp hp with rfl
      exact hinc
    | cons y rest' =>
      rcases List.mem_cons.mp hp with rfl | hp'
      · show strIncludes (p ++ sep ++ joinSep sep (y :: rest')) pat = true
        exact strIncludes_append_left _ _ _ (strIncludes_append_left _ _ _ hinc)
      · show strIncludes (x ++ sep ++ joinSep sep (y :: rest')) pat = true
        exact strIncludes_append_right _ _ _ (ih p hp' hinc)

/-! ## Evaluation lemmas for the fueled serializer -/

/-- A revisited composite serializes to the quoted circular marker. -/
theorem serProp_ref_seen (heap : Heap) (fuel : Nat) (seen : Option (List Nat))
    (r : Nat) (hs : seenHas seen r = true) :
    serProp heap fuel seen (.hRef r) = (.val (some (jq circularMarker)), seen) := by
  cases fuel with
  | zero => simp [serProp, hs]
  | succ fuel => simp [serProp, hs]

theorem serProp_ref_fresh_zero (heap : Heap) (seen : Option (List Nat)) (r : Nat)
    (hs : seenHas seen r = false) :
    serProp heap 0 seen (.hRef r) = (.noFuel, seenAdd seen r) := by
  simp [serProp, hs]

theorem serProp_ref_fresh_arr (heap : Heap) (fuel : Nat) (seen : Option (List Nat))
    (r : Nat) (elems : List HVal)
    (hs : seenHas seen r = false) (hc : cellAt heap r = .arrCell elems) :
    serProp heap (fuel + 1) seen (.hRef r)
      = (match serList (serProp heap fuel) (seenAdd seen r) elems with
          | (.items ps, seen1) => (.val (some ("[" ++ joinSep (",") ps ++ "]")), seen1)
          | (.typeErr, seen1) => (.typeErr, seen1)
          | (.noFuel, seen1) => (.noFuel, seen1)) := by
  simp [serProp, hs, hc]

theorem serProp_ref_fresh_obj (heap : Heap) (fuel : Nat) (seen : Option (List Nat))
    (r : Nat) (fields : List (String × HVal))
    (hs : seenHas seen r = false) (hc : cellAt heap r = .objCell fields) :
    serProp heap (fuel + 1) seen (.hRef r)
      = (match serFieldList (serProp heap fuel) (seenAdd seen r) fields with
          | (.items ps, seen1) =>
            (.val (some ("\x7b" ++ joinSep (",") ps ++ "\x7d")), seen1)
          | (.typeErr, seen1) => (.typeErr, seen1)
          | (.noFuel, seen1) => (.noFuel, seen1)) := by
  simp [serProp, hs, hc]

/-- A cell on or leading to a cycle has a successor on or leading to a cycle. -/
theorem cyc_step (heap : Heap) (r : Nat) (h : cyc heap r) :
    ∃ q, heapEdge heap r q ∧ cyc heap q := by
  obtain ⟨p, hrp, hpp⟩ := h
  rcases Relation.ReflTransGen.cases_head hrp with rfl | ⟨c, hrc, hcp⟩
  · obtain ⟨c, hrc, hcr⟩ := (Relation.TransGen.head'_iff).mp hpp
    exact ⟨c, hrc, r, hcr, hpp⟩
  · exact ⟨c, hrc, p, hcp, hpp⟩

/-- A duplicate-free list of naturals below `n` has at most `n` entries. -/
theorem nodup_lt_bound (l : List Nat) (n : Nat) (hnd : l.Nodup)
    (hb : ∀ x ∈ l, x < n) : l.length ≤ n := by
  have h1 : l.toFinset.card = l.length := List.toFinset_card_of_nodup hnd
  have h2 : l.toFinset ⊆ Finset.range n := by
    intro x hx
    rw [Finset.mem_range]
    exact hb x (List.mem_toFinset.mp hx)
  have h3 := Finset.card_le_card h2
  rw [h1, Finset.card_range] at h3
  exact h3

/-- In a well-formed heap every cell's children are well-formed values. -/
theorem cell_children_wf (heap : Heap) (hw : heapWF heap = true) (r : Nat)
    (hr : r < heap.length) :
    (cellAt heap r).children.all (refOk heap.length) = true := by
  have hmem : cellAt heap r ∈ heap := by
    unfold cellAt
    rw [List.getD_eq_getElem heap _ hr]
    exact List.getElem_mem hr
  exact List.all_eq_true.mp hw _ hmem

/-- The quoted circular marker contains the circular marker. -/
theorem marker_in_jq : strIncludes (jq circularMarker) circularMarker = true := by
  decide

/-- If some element of an array forces the marker, the serialized element
list contains a marker-carrying fragment. -/
theorem serList_marker (f : Option (List Nat) → HVal → SerOut × Option (List Nat)) :
    ∀ (vs : List HVal) (seen : Option (List Nat)) (ps : List String)
      (seen2 : Option (List Nat)),
    serList f seen vs = (.items ps, seen2) →
    (∃ v ∈ vs, Forcing f v) →
    ∃ p ∈ ps, strIncludes p circularMarker = true := by
  intro vs
  induction vs with
  | nil =>
    intro seen ps seen2 heq hco
    obtain ⟨v, hv, -⟩ := hco
    exact absurd hv (List.not_mem_nil _)
  | cons v rest ih =>
    intro seen ps seen2 heq hco
    rcases hfv : f seen v with ⟨o, seen1⟩
    cases o with
    | val oo =>
      rcases hrest : serList f seen1 rest with ⟨ro, seen3⟩
      cases ro with
      | items ps1 =>
        simp only [serList, hfv, hrest] at heq
        injection heq with h1 h2
        injection h1 with h1
        obtain ⟨w, hw, hforce⟩ := hco
        rcases List.mem_cons.mp hw with rfl | hwrest
        · obtain ⟨s, hs, hinc⟩ := hforce seen oo seen1 hfv
          refine ⟨s, ?_, hinc⟩
          rw [← h1, hs]
          simp
        · obtain ⟨p, hp, hinc⟩ := ih seen1 ps1 seen3 hrest ⟨w, hwrest, hforce⟩
          refine ⟨p, ?_, hinc⟩
          rw [← h1]
          exact List.mem_cons_of_mem _ hp
      | typeErr => simp [serList, hfv, hrest] at heq
      | noFuel => simp [serList, hfv, hrest] at heq
    | typeErr => simp [serList, hfv] at heq
    | noFuel => simp [serList, hfv] at heq

/-- If some field value of an object forces the marker, the serialized field
list contains a marker-carrying fragment. -/
theorem serFieldList_marker (f : Option (List Nat) → HVal → SerOut × Option (List Nat)) :
    ∀ (fs : List (String × HVal)) (seen : Option (List Nat)) (ps : List String)
      (seen2 : Option (List Nat)),
    serFieldList f seen fs = (.items ps, seen2) →
    (∃ kv ∈ fs, Forcing f kv.2) →
    ∃ p ∈ ps, strIncludes p circularMarker = true := by
  intro fs
  induction fs with
  | nil =>
    intro seen ps seen2 heq hco
    obtain ⟨kv, hkv, -⟩ := hco
    exact absurd hkv (List.not_mem_nil _)
  | cons kv rest ih =>
    obtain ⟨k, v⟩ := kv
    intro seen ps seen2 heq hco
    rcases hfv : f seen v with ⟨o, seen1⟩
    cases o with
    | val oo =>
      rcases hrest : serFieldList f seen1 rest with ⟨ro, seen3⟩
      cases ro with
      | items ps1 =>
        simp only [serFieldList, hfv, hrest] at heq
        injection heq with h1 h2
        injection h1 with h1
        obtain ⟨w, hw, hforce⟩ := hco
        rcases List.mem_cons.mp hw with rfl | hwrest
        · obtain ⟨s, hs, hinc⟩ := hforce seen oo seen1 hfv
          refine ⟨jq k ++ ":" ++ s, ?_, strIncludes_append_right _ _ _ hinc⟩
          rw [← h1, hs]
          simp
        · obtain ⟨p, hp, hinc⟩ := ih seen1 ps1 seen3 hrest ⟨w, hwrest, hforce⟩
          refine ⟨p, ?_, hinc⟩
          rw [← h1]
          exact List.mem_append_right _ hp
      | typeErr => simp [serFieldList, hfv, hrest] at heq
      | noFuel => simp [serFieldList, hfv, hrest] at heq
    | typeErr => simp [serFieldList, hfv] at heq
    | noFuel => simp [serFieldList, hfv] at heq

/-- Core circularity lemma: serializing a reference that is already tracked
or that leads to a reference cycle can only succeed with the marker somewhere
in the produced fragment. -/
theorem serProp_cyc (heap : Heap) :
    ∀ (fuel : Nat) (seen : Option (List Nat)) (v : HVal) (out : Option String)
      (seen2 : Option (List Nat)),
    serProp heap fuel seen v = (.val out, seen2) →
    (∃ r, v = .hRef r ∧ (seenHas seen r = true ∨ cyc heap r)) →
    MarkerOut out := by
  intro fuel
  induction fuel with
  | zero =>
    intro seen v out seen2 heq hyp
    obtain ⟨r, rfl, hor⟩ := hyp
    cases hsr : seenHas seen r with
    | false =>
      rw [serProp_ref_fresh_zero heap seen r hsr] at heq
      exact absurd heq (by simp)
    | true =>
      rw [serProp_ref_seen heap 0 seen r hsr] at heq
      injection heq with h1 h2
      injection h1 with h1
      exact ⟨jq circularMarker, h1.symm, marker_in_jq⟩
  | succ fuel ih =>
    intro seen v out seen2 heq hyp
    obtain ⟨r, rfl, hor⟩ := hyp
    cases hsr : seenHas seen r with
    | true =>
      rw [serProp_ref_seen heap (fuel + 1) seen r hsr] at heq
      injection heq with h1 h2
      injection h1 with h1
      exact ⟨jq circularMarker, h1.symm, marker_in_jq⟩
    | false =>
      have hcyc : cyc heap r := by
        rcases hor with h | h
        · rw [hsr] at h
          exact absurd h (by simp)
        · exact h
      obtain ⟨q, hq, hqc⟩ := cyc_step heap r hcyc
      unfold heapEdge at hq
      have hforce : Forcing (serProp heap fuel) (.hRef q) := by
        intro seen3 out3 seen4 h3
        exact ih seen3 _ out3 seen4 h3 ⟨q, rfl, Or.inr hqc⟩
      rcases hcell : cellAt heap r with elems | fields
      · rw [serProp_ref_fresh_arr heap fuel seen r elems hsr hcell] at heq
        rcases hsl : serList (serProp heap fuel) (seenAdd seen r) elems with ⟨ro, seen1⟩
        rw [hsl] at heq
        cases ro with
        | items ps =>
          injection heq with h1 h2
          injection h1 with h1
          have hmem : HVal.hRef q ∈ elems := by
            rw [hcell] at hq
            exact hq
          obtain ⟨p, hp, hinc⟩ := serList_marker (serProp heap fuel) elems
            (seenAdd seen r) ps seen1 hsl ⟨.hRef q, hmem, hforce⟩
          refine ⟨"[" ++ joinSep (",") ps ++ "]", h1.symm, ?_⟩
          exact strIncludes_append_left _ _ _
            (strIncludes_append_right _ _ _ (joinSep_includes _ _ ps p hp hinc))
        | typeErr => exact absurd heq (by simp)
        | noFuel => exact absurd heq (by simp)
      · rw [serProp_ref_fresh_obj heap fuel seen r fields hsr hcell] at heq
        rcases hsl : serFieldList (serProp heap fuel) (seenAdd seen r) fields
          with ⟨ro, seen1⟩
        rw [hsl] at heq
        cases ro with
        | items ps =>
          injection heq with h1 h2
          injection h1 with h1
          have hq2 : HVal.hRef q ∈ fields.map Prod.snd := by
            rw [hcell] at hq
            exact hq
          obtain ⟨kv, hkv, hsnd⟩ := List.mem_map.mp hq2
          have hforce2 : Forcing (serProp heap fuel) kv.2 := by
            rw [hsnd]
            exact hforce
          obtain ⟨p, hp, hinc⟩ := serFieldList_marker (serProp heap fuel) fields
            (seenAdd seen r) ps seen1 hsl ⟨kv, hkv, hforce2⟩
          refine ⟨"\x7b" ++ joinSep (",") ps ++ "\x7d", h1.symm, ?_⟩
          exact strIncludes_append_left _ _ _
            (strIncludes_append_right _ _ _ (joinSep_includes _ _ ps p hp hinc))
        | typeErr => exact absurd heq (by simp)
        | noFuel => exact absurd heq (by simp)

/-- Seen-set discipline lifts from a value serializer to array elements. -/
theorem serList_seen (heap : Heap)
    (f : Option (List Nat) → HVal → SerOut × Option (List Nat)) (hf : SeenOK heap f) :
    ∀ (vs : List HVal) (seen : Option (List Nat)),
    vs.all (refOk heap.length) = true → seenListWF heap (seen.getD []) →
    (∃ ext, ((serList f seen vs).2).getD [] = ext ++ seen.getD []) ∧
      seenListWF heap (((serList f seen vs).2).getD []) := by
  intro vs
  induction vs with
  | nil =>
    intro seen hall hwf
    exact ⟨⟨[], rfl⟩, hwf⟩
  | cons v rest ih =>
    intro seen hall hwf
    have hsp : refOk heap.length v = true ∧ rest.all (refOk heap.length) = true := by
      simpa [List.all_cons, Bool.and_eq_true] using hall
    rcases hfv : f seen v with ⟨o, seen1⟩
    have h2 : (f seen v).2 = seen1 := by rw [hfv]
    obtain ⟨⟨ext1, hext1⟩, hwf1⟩ := hf seen v hsp.1 hwf
    rw [h2] at hext1 hwf1
    cases o with
    | val oo =>
      rcases hres : serList f seen1 rest with ⟨ro, seen2⟩
      have h3 : (serList f seen1 rest).2 = seen2 := by rw [hres]
      obtain ⟨⟨ext2, hext2⟩, hwf2⟩ := ih seen1 hsp.2 hwf1
      rw [h3] at hext2 hwf2
      have hgoal : (serList f seen (v :: rest)).2 = seen2 := by
        simp only [serList, hfv]
        rw [hres]
        cases ro <;> rfl
      rw [hgoal]
      refine ⟨⟨ext2 ++ ext1, ?_⟩, hwf2⟩
      rw [hext2, hext1, List.append_assoc]
    | typeErr =>
      have hgoal : (serList f seen (v :: rest)).2 = seen1 := by
        simp only [serList, hfv]
      rw [hgoal]
      exact ⟨⟨ext1, hext1⟩, hwf1⟩
    | noFuel =>
      have hgoal : (serList f seen (v :: rest)).2 = seen1 := by
        simp only [serList, hfv]
      rw [hgoal]
      exact ⟨⟨ext1, hext1⟩, hwf1⟩

/-- Seen-set discipline lifts from a value serializer to object fields. -/
theorem serFieldList_seen (heap : Heap)
    (f : Option (List Nat) → HVal → SerOut × Option (List Nat)) (hf : SeenOK heap f) :
    ∀ (fs : List (String × HVal)) (seen : Option (List Nat)),
    fs.all (fun kv => refOk heap.length kv.2) = true →
    seenListWF heap (seen.getD []) →
    (∃ ext, ((serFieldList f seen fs).2).getD [] = ext ++ seen.getD []) ∧
      seenListWF heap (((serFieldList f seen fs).2).getD []) := by
  intro fs
  induction fs with
  | nil =>
    intro seen hall hwf
    exact ⟨⟨[], rfl⟩, hwf⟩
  | cons kv rest ih =>
    obtain ⟨k, v⟩ := kv
    intro seen hall hwf
    have hsp : refOk heap.length v = true ∧
        rest.all (fun kv => refOk heap.length kv.2) = true := by
      simpa [List.all_cons, Bool.and_eq_true] using hall
    rcases hfv : f seen v with ⟨o, seen1⟩
    have h2 : (f seen v).2 = seen1 := by rw [hfv]
    obtain ⟨⟨ext1, hext1⟩, hwf1⟩ := hf seen v hsp.1 hwf
    rw [h2] at hext1 hwf1
    cases o with
    | val oo =>
      rcases hres : serFieldList f seen1 rest with ⟨ro, seen2⟩
      have h3 : (serFieldList f seen1 rest).2 = seen2 := by rw [hres]
      obtain ⟨⟨ext2, hext2⟩, hwf2⟩ := ih seen1 hsp.2 hwf1
      rw [h3] at hext2 hwf2
      have hgoal : (serFieldList f seen ((k, v) :: rest)).2 = seen2 := by
        simp only [serFieldList, hfv]
        rw [hres]
        cases ro <;> rfl
      rw [hgoal]
      refine ⟨⟨ext2 ++ ext1, ?_⟩, hwf2⟩
      rw [hext2, hext1, List.append_assoc]
    | typeErr =>
      have hgoal : (serFieldList f seen ((k, v) :: rest)).2 = seen1 := by
        simp only [serFieldList, hfv]
      rw [hgoal]
      exact ⟨⟨ext1, hext1⟩, hwf1⟩
    | noFuel =>
      have hgoal : (serFieldList f seen ((k, v) :: rest)).2 = seen1 := by
        simp only [serFieldList, hfv]
      rw [hgoal]
      exact ⟨⟨ext1, hext1⟩, hwf1⟩

/-- The fueled serializer obeys the seen-set discipline at every fuel level:
the tracker only grows and stays well-formed. -/
theorem serProp_seen (heap : Heap) (hw : heapWF heap = true) :
    ∀ fuel, SeenOK heap (serProp heap fuel) := by
  intro fuel
  induction fuel with
  | zero =>
    intro seen v hv hwf
    cases v
    case hRef r =>
      have hr : r < heap.length := by simpa [refOk] using hv
      cases hsr : seenHas seen r with
      | true =>
        rw [serProp_ref_seen heap 0 seen r hsr]
        exact ⟨⟨[], rfl⟩, hwf⟩
      | false =>
        have hnot : r ∉ seen.getD [] := by simpa [seenHas] using hsr
        rw [serProp_ref_fresh_zero heap seen r hsr]
        refine ⟨⟨[r], rfl⟩, List.nodup_cons.mpr ⟨hnot, hwf.1⟩, ?_⟩
        intro x hx
        rcases List.mem_cons.mp hx with rfl | hx2
        · exact hr
        · exact hwf.2 x hx2
    all_goals exact ⟨⟨[], rfl⟩, hwf⟩
  | succ fuel ih =>
    intro seen v hv hwf
    cases v
    case hRef r =>
      have hr : r < heap.length := by simpa [refOk] using hv
      cases hsr : seenHas seen r with
      | true =>
        rw [serProp_ref_seen heap (fuel + 1) seen r hsr]
        exact ⟨⟨[], rfl⟩, hwf⟩
      | false =>
        have hnot : r ∉ seen.getD [] := by simpa [seenHas] using hsr
        have hwfadd : seenListWF heap ((seenAdd seen r).getD []) := by
          refine ⟨List.nodup_cons.mpr ⟨hnot, hwf.1⟩, ?_⟩
          intro x hx
          rcases List.mem_cons.mp hx with rfl | hx2
          · exact hr
          · exact hwf.2 x hx2
        rcases hcell : cellAt heap r with elems | fields
        · have hall : elems.all (refOk heap.length) = true := by
            have hch := cell_children_wf heap hw r hr
            rw [hcell] at hch
            exact hch
          obtain ⟨⟨ext2, hext2⟩, hwf2⟩ :=
            serList_seen heap (serProp heap fuel) ih elems (seenAdd seen r) hall hwfadd
          rcases hsl : serList (serProp heap fuel) (seenAdd seen r) elems with ⟨ro, seen1⟩
          have h3 : (serList (serProp heap fuel) (seenAdd seen r) elems).2 = seen1 := by
            rw [hsl]
          rw [h3] at hext2 hwf2
          have hgoal : (serProp heap (fuel + 1) seen (.hRef r)).2 = seen1 := by
            rw [serProp_ref_fresh_arr heap fuel seen r elems hsr hcell, hsl]
            cases ro <;> rfl
          rw [hgoal]
          refine ⟨⟨ext2 ++ [r], ?_⟩, hwf2⟩
          rw [hext2]
          show ext2 ++ (r :: seen.getD []) = (ext2 ++ [r]) ++ seen.getD []
          simp [List.append_assoc]
        · have hall : fields.all (fun kv => refOk heap.length kv.2) = true := by
            have hch := cell_children_wf heap hw r hr
            rw [hcell] at hch
            refine List.all_eq_true.mpr ?_
            intro kv hkv
            exact List.all_eq_true.mp hch kv.2 (List.mem_map_of_mem Prod.snd hkv)
          obtain ⟨⟨ext2, hext2⟩, hwf2⟩ :=
            serFieldList_seen heap (serProp heap fuel) ih fields (seenAdd seen r)
              hall hwfadd
          rcases hsl : serFieldList (serProp heap fuel) (seenAdd seen r) fields
            with ⟨ro, seen1⟩
          have h3 : (serFieldList (serProp heap fuel) (seenAdd seen r) fields).2
              = seen1 := by
            rw [hsl]
          rw [h3] at hext2 hwf2
          have hgoal : (serProp heap (fuel + 1) seen (.hRef r)).2 = seen1 := by
            rw [serProp_ref_fresh_obj heap fuel seen r fields hsr hcell, hsl]
            cases ro <;> rfl
          rw [hgoal]
          refine ⟨⟨ext2 ++ [r], ?_⟩, hwf2⟩
          rw [hext2]
          show ext2 ++ (r :: seen.getD []) = (ext2 ++ [r]) ++ seen.getD []
          simp [List.append_assoc]
    all_goals exact ⟨⟨[], rfl⟩, hwf⟩

/-- Fuel discipline lifts from a value serializer to array elements. -/
theorem serList_fuel (heap : Heap) (fuel : Nat)
    (f : Option (List Nat) → HVal → SerOut × Option (List Nat))
    (hs : SeenOK heap f) (hfu : FuelOK heap fuel f) :
    ∀ (vs : List HVal) (seen : Option (List Nat)),
    vs.all (refOk heap.length) = true → seenListWF heap (seen.getD []) →
    heap.length + 1 ≤ fuel + (seen.getD []).length →
    (serList f seen vs).1 ≠ SerListOut.noFuel := by
  intro vs
  induction vs with
  | nil =>
    intro seen _ _ _ h
    simp [serList] at h
  | cons v rest ih =>
    intro seen hall hwf hb h
    have hsp : refOk heap.length v = true ∧ rest.all (refOk heap.length) = true := by
      simpa [List.all_cons, Bool.and_eq_true] using hall
    rcases hfv : f seen v with ⟨o, seen1⟩
    have h2 : (f seen v).2 = seen1 := by rw [hfv]
    cases o with
    | noFuel =>
      exact hfu seen v hsp.1 hwf hb (by rw [hfv])
    | typeErr =>
      simp [serList, hfv] at h
    | val oo =>
      obtain ⟨⟨ext1, hext1⟩, hwf1⟩ := hs seen v hsp.1 hwf
      rw [h2] at hext1 hwf1
      have hb1 : heap.length + 1 ≤ fuel + (seen1.getD []).length := by
        rw [hext1, List.length_append]
        omega
      have hni := ih seen1 hsp.2 hwf1 hb1
      rcases hres : serList f seen1 rest with ⟨ro, seen2⟩
      cases ro with
      | items ps => simp [serList, hfv, hres] at h
      | typeErr => simp [serList, hfv, hres] at h
      | noFuel => exact hni (by rw [hres])

/-- Fuel discipline lifts from a value serializer to object fields. -/
theorem serFieldList_fuel (heap : Heap) (fuel : Nat)
    (f : Option (List Nat) → HVal → SerOut × Option (List Nat))
    (hs : SeenOK heap f) (hfu : FuelOK heap fuel f) :
    ∀ (fs : List (String × HVal)) (seen : Option (List Nat)),
    fs.all (fun kv => refOk heap.length kv.2) = true →
    seenListWF heap (seen.getD []) →
    heap.length + 1 ≤ fuel + (seen.getD []).length →
    (serFieldList f seen fs).1 ≠ SerListOut.noFuel := by
  intro fs
  induction fs with
  | nil =>
    intro seen _ _ _ h
    simp [serFieldList] at h
  | cons kv rest ih =>
    obtain ⟨k, v⟩ := kv
    intro seen hall hwf hb h
    have hsp : refOk heap.length v = true ∧
        rest.all (fun kv => refOk heap.length kv.2) = true := by
      simpa [List.all_cons, Bool.and_eq_true] using hall
    rcases hfv : f seen v with ⟨o, seen1⟩
    have h2 : (f seen v).2 = seen1 := by rw [hfv]
    cases o with
    | noFuel =>
      exact hfu seen v hsp.1 hwf hb (by rw [hfv])
    | typeErr =>
      simp [serFieldList, hfv] at h
    | val oo =>
      obtain ⟨⟨ext1, hext1⟩, hwf1⟩ := hs seen v hsp.1 hwf
      rw [h2] at hext1 hwf1
      have hb1 : heap.length + 1 ≤ fuel + (seen1.getD []).length := by
        rw [hext1, List.length_append]
        omega
      have hni := ih seen1 hsp.2 hwf1 hb1
      rcases hres : serFieldList f seen1 rest with ⟨ro, seen2⟩
      cases ro with
      | items ps => simp [serFieldList, hfv, hres] at h
      | typeErr => simp [serFieldList, hfv, hres] at h
      | noFuel => exact hni (by rw [hres])

/-- The fueled serializer never exhausts fuel once fuel plus tracker size
exceeds the heap size: the replacer marks every revisit, so the recursion
depth is bounded by the number of distinct cells. -/
theorem serProp_fuel (heap : Heap) (hw : heapWF heap = true) :
    ∀ fuel, FuelOK heap fuel (serProp heap fuel) := by
  intro fuel
  induction fuel with
  | zero =>
    intro seen v hv hwf hb h
    have hlen := nodup_lt_bound (seen.getD []) heap.length hwf.1 hwf.2
    omega
  | succ fuel ih =>
    intro seen v hv hwf hb
    cases v
    case hRef r =>
      have hr : r < heap.length := by simpa [refOk] using hv
      cases hsr : seenHas seen r with
      | true =>
        rw [serProp_ref_seen heap (fuel + 1) seen r hsr]
        simp
      | false =>
        have hnot : r ∉ seen.getD [] := by simpa [seenHas] using hsr
        have hwfadd : seenListWF heap ((seenAdd seen r).getD []) := by
          refine ⟨List.nodup_cons.mpr ⟨hnot, hwf.1⟩, ?_⟩
          intro x hx
          rcases List.mem_cons.mp hx with rfl | hx2
          · exact hr
          · exact hwf.2 x hx2
        have hbadd : heap.length + 1 ≤ fuel + ((seenAdd seen r).getD []).length := by
          show heap.length + 1 ≤ fuel + (r :: seen.getD []).length
          simp only [List.length_cons]
          omega
        rcases hcell : cellAt heap r with elems | fields
        · have hall : elems.all (refOk heap.length) = true := by
            have hch := cell_children_wf heap hw r hr
            rw [hcell] at hch
            exact hch
          intro h
          rw [serProp_ref_fresh_arr heap fuel seen r elems hsr hcell] at h
          rcases hsl : serList (serProp heap fuel) (seenAdd seen r) elems
            with ⟨ro, seen1⟩
          rw [hsl] at h
          cases ro with
          | items ps => simp at h
          | typeErr => simp at h
          | noFuel =>
            exact serList_fuel heap fuel (serProp heap fuel)
              (serProp_seen heap hw fuel) ih elems (seenAdd seen r)
              hall hwfadd hbadd (by rw [hsl])
        · have hall : fields.all (fun kv => refOk heap.length kv.2) = true := by
            have hch := cell_children_wf heap hw r hr
            rw [hcell] at hch
            refine List.all_eq_true.mpr ?_
            intro kv hkv
            exact List.all_eq_true.mp hch kv.2 (List.mem_map_of_mem Prod.snd hkv)
          intro h
          rw [serProp_ref_fresh_obj heap fuel seen r fields hsr hcell] at h
          rcases hsl : serFieldList (serProp heap fuel) (seenAdd seen r) fields
            with ⟨ro, seen1⟩
          rw [hsl] at h
          cases ro with
          | items ps => simp at h
          | typeErr => simp at h
          | noFuel =>
            exact serFieldList_fuel heap fuel (serProp heap fuel)
              (serProp_seen heap hw fuel) ih fields (seenAdd seen r)
              hall hwfadd hbadd (by rw [hsl])
    all_goals (intro h; simp [serProp] at h)

/-- C4: on a well-formed heap the result-encoding step is safe for every
handler return value, including self-referential ones: the fueled model of
`JSON.stringify` with the circular-reference replacer never exhausts its
fuel (the real recursion terminates — a revisit is cut off by the marker);
whenever structured serialization succeeds on a value containing a
reference cycle, the output text contains the `"[Circular Reference]"`
marker; and when structured serialization faults (the `TypeError` a BigInt
raises), the encoding falls back to the value's plain textual
representation `String(result)` instead of failing the call. -/
theorem c4_serialization_safe (heap : Heap) (v : HVal)
    (hw : heapWF heap = true) (hv : refOk heap.length v = true) :
    (serProp heap (stringifyFuel heap) none v).1 ≠ SerOut.noFuel ∧
    (∀ out, (serProp heap (stringifyFuel heap) none v).1 = .val (some out) →
      HasCycle heap v → strIncludes out circularMarker = true) ∧
    ((serProp heap (stringifyFuel heap) none v).1 = .typeErr →
      (encodeContent none heap v).1 = jsToString heap v) := by
  refine ⟨?_, ?_, ?_⟩
  · exact serProp_fuel heap hw (stringifyFuel heap) none v hv
      ⟨List.nodup_nil, by intro x hx; exact absurd hx (List.not_mem_nil _)⟩
      (by simp [stringifyFuel])
  · intro out hval hcyc
    obtain ⟨x, hreach, hxx⟩ := hcyc
    obtain ⟨r, rfl, hrx⟩ := hreach
    rcases hsp : serProp heap (stringifyFuel heap) none (.hRef r) with ⟨o, seen2⟩
    have ho : o = .val (some out) := by
      rw [hsp] at hval
      exact hval
    subst ho
    obtain ⟨s, hs, hinc⟩ := serProp_cyc heap (stringifyFuel heap) none (.hRef r)
      (some out) seen2 hsp ⟨r, rfl, Or.inr ⟨x, hrx, hxx⟩⟩
    injection hs with hs
    rw [hs]
    exact hinc
  · intro ht
    cases v
    case hStr s =>
      rw [show serProp heap (stringifyFuel heap) none (.hStr s)
        = (.val (some (jq s)), none) from rfl] at ht
      simp at ht
    case hNull =>
      rw [show serProp heap (stringifyFuel heap) none .hNull
        = (.val (some ("null")), none) from rfl] at ht
      simp at ht
    case hUndef =>
      rw [show serProp heap (stringifyFuel heap) none .hUndef
        = (.val none, none) from rfl] at ht
      simp at ht
    case hBool b =>
      rcases hsp : serProp heap (stringifyFuel heap) none (.hBool b) with ⟨o, seen2⟩
      have ho : o = .typeErr := by
        rw [hsp] at ht
        exact ht
      subst ho
      simp only [encodeContent]
      rw [hsp]
    case hNum n =>
      rcases hsp : serProp heap (stringifyFuel heap) none (.hNum n) with ⟨o, seen2⟩
      have ho : o = .typeErr := by
        rw [hsp] at ht
        exact ht
      subst ho
      simp only [encodeContent]
      rw [hsp]
    case hBig n =>
      rcases hsp : serProp heap (stringifyFuel heap) none (.hBig n) with ⟨o, seen2⟩
      have ho : o = .typeErr := by
        rw [hsp] at ht
        exact ht
      subst ho
      simp only [encodeContent]
      rw [hsp]
    case hRef r =>
      rcases hsp : serProp heap (stringifyFuel heap) none (.hRef r) with ⟨o, seen2⟩
      have ho : o = .typeErr := by
        rw [hsp] at ht
        exact ht
      subst ho
      simp only [encodeContent]
      rw [hsp]

/-- Witness for C4 at the self-referential heap `exCycHeap`. -/
theorem c4_serialization_safe_witness :
    heapWF exCycHeap = true ∧ refOk exCycHeap.length (HVal.hRef 0) = true ∧
    ((serProp exCycHeap (stringifyFuel exCycHeap) none (.hRef 0)).1 ≠ SerOut.noFuel ∧
    (∀ out,
      (serProp exCycHeap (stringifyFuel exCycHeap) none (.hRef 0)).1 = .val (some out) →
      HasCycle exCycHeap (.hRef 0) → strIncludes out circularMarker = true) ∧
    ((serProp exCycHeap (stringifyFuel exCycHeap) none (.hRef 0)).1 = .typeErr →
      (encodeContent none exCycHeap (.hRef 0)).1 = jsToString exCycHeap (.hRef 0))) :=
  ⟨by decide, by decide,
    c4_serialization_safe exCycHeap (.hRef 0) (by decide) (by decide)⟩
